import Mathlib

/-!
# Plugin control: per-service, per-scope toggles (`control/rule.go`)

A shallow embedding of package `control`.

* `int64` values (group ids, the `Disable` flag) are embedded as `Int`. The only
  arithmetic on them is the negation of the user id in `Handler` and in the
  command handler, embedded with its wrap-around (`neg64`); everything else is an
  equality test, so every statement proved for all `Int` holds for all `int64`.
* Package-level variables (`db`, `managers`) become explicit state that is passed
  in and returned.
* Every `sync.RWMutex` acquired by a function is released before the function
  returns (and, in `IsEnabledIn`, before the nested call to `Enable`/`Disable`),
  so in a sequential execution the locks have no observable effect and are not
  part of the state.
* An `error` result is embedded as `Option`: `none` stands for `err != nil`.
-/

namespace control

/-! ## Data model -/

/-- The constant `ALL`: the reserved scope 0 addresses the global-override row. -/
def ALL : Int := 0

/-- Modelled from the spec: the row type `grpcfg` (ScopeConfig) is declared outside
`rule.go`; its two fields are taken from the positional literals
`grpcfg{groupID, 0}` and from the uses `c.GroupID`, `c.Disable` in `rule.go`. -/
structure grpcfg where
  GroupID : Int
  Disable : Int
deriving DecidableEq, Repr

/-- Modelled from the spec: the type `Options` is declared outside `rule.go`; its
fields are taken from the uses `m.options.DisableOnDefault` and
`service.options.Help` (spec: `defaultDisabled`, `helpText`). -/
structure Options where
  DisableOnDefault : Bool
  Help : String
deriving DecidableEq, Repr

/-- The struct `Control`. The embedded mutex is not part of the state (see the
header). `addr` stands for the identity of the allocated object: `newctrl`
returns a pointer to a fresh `Control`, and two pointers are the same instance
exactly when they have the same address. -/
structure Control where
  addr : Nat
  service : String
  options : Options
deriving DecidableEq, Repr

/-! ## The persistent store -/

/-- The rows of one namespace (one table per service). -/
abbrev Table := List grpcfg

/-- Modelled from the spec: the storage engine (package `utils/sql`, type `Sqlite`)
is not part of `rule.go`. Its state is one table of rows per namespace name. -/
abbrev Sqlite := String → Table

/-- Modelled from the spec: `CreateNamespace(name) → error`, "idempotent-or-fails
creation of a durable table/namespace keyed by service name". Whether the call
fails is decided by the environment (`fault`); a successful creation leaves the
rows already stored untouched. -/
def Sqlite.Create (db : Sqlite) (fault : Bool) (_table : String) : Option Sqlite :=
  if fault then none else some db

/-- Modelled from the spec: `Upsert(name, record) → error`, "insert-or-replace keyed
by `(name, scope)`": every stored row of the namespace with the record's scope is
replaced by the record. Whether the call fails is decided by the environment
(`fault`); a failed call stores nothing. -/
def Sqlite.Insert (db : Sqlite) (fault : Bool) (table : String) (r : grpcfg) :
    Option Sqlite :=
  if fault then none
  else some (Function.update db table
    ((db table).filter (fun x => x.GroupID != r.GroupID) ++ [r]))

/-- Modelled from the spec: `FindOne(name, predicate) → (ScopeConfig, found)`, "point
lookup; the only predicate used is an equality filter on `scope`". The condition
string `"WHERE gid = " + strconv.FormatInt(gid, 10)` built by the callers is
embedded as the scope `gid` itself. Besides an environment fault, the lookup
fails exactly when the namespace holds no row for `gid`. -/
def Sqlite.Find (db : Sqlite) (fault : Bool) (table : String) (gid : Int) :
    Option grpcfg :=
  if fault then none
  else (db table).find? (fun x => x.GroupID == gid)

/-- At most one row per scope in a table. -/
def Table.uniqueScopes (t : Table) : Prop :=
  (t.map grpcfg.GroupID).Nodup

instance (t : Table) : Decidable t.uniqueScopes :=
  inferInstanceAs (Decidable (List.Nodup _))

/-! ## `Control`: mutation and resolution -/

/-- `func (m *Control) Enable(groupID int64)`: insert the row `{groupID, 0}`; an
error of the store is logged and otherwise ignored. -/
def Control.Enable (m : Control) (fault : Bool) (db : Sqlite) (groupID : Int) : Sqlite :=
  match db.Insert fault m.service ⟨groupID, 0⟩ with
  | none => db
  | some db' => db'

/-- `func (m *Control) Disable(groupID int64)`: insert the row `{groupID, 1}`; an
error of the store is logged and otherwise ignored. -/
def Control.Disable (m : Control) (fault : Bool) (db : Sqlite) (groupID : Int) : Sqlite :=
  match db.Insert fault m.service ⟨groupID, 1⟩ with
  | none => db
  | some db' => db'

/-- The environment's decision, for one call of `IsEnabledIn`, of which of its
storage calls hit a storage fault: the lookup of the global row, the lookup of
the row for `gid`, and the insert of the write-back. -/
structure Faults where
  findAll : Bool
  findGid : Bool
  insert : Bool
deriving DecidableEq, Repr

/-- The fault-free environment: a lookup fails exactly when the row is absent. -/
def noFaults : Faults := ⟨false, false, false⟩

/-- `func (m *Control) IsEnabledIn(gid int64) bool`, returning the result together
with the store after the call. -/
def Control.IsEnabledIn (m : Control) (f : Faults) (db : Sqlite) (gid : Int) :
    Bool × Sqlite :=
  -- err := db.Find(m.service, &c, "WHERE gid = 0"); if err == nil && c.Disable != 0
  let globalOff : Bool :=
    match db.Find f.findAll m.service ALL with
    | some c => c.Disable != 0
    | none => false
  if globalOff then (false, db)
  else
    -- err = db.Find(m.service, &c, "WHERE gid = <gid>")
    match db.Find f.findGid m.service gid with
    | some c => (c.Disable == 0, db)
    | none =>
      if m.options.DisableOnDefault then
        (!m.options.DisableOnDefault, m.Disable f.insert db gid)
      else
        (!m.options.DisableOnDefault, m.Enable f.insert db gid)

/-- The three-step resolution in the words of the specification, over a
fault-free store: `false` if the scope-0 row exists with `disabled != 0`;
otherwise `disabled == 0` of the row for `g` if such a row exists; otherwise the
negation of `DisableOnDefault`. -/
def resolution (m : Control) (db : Sqlite) (g : Int) : Bool :=
  match db.Find false m.service 0, db.Find false m.service g with
  | some c0, some c => if c0.Disable ≠ 0 then false else c.Disable == 0
  | some c0, none => if c0.Disable ≠ 0 then false else !m.options.DisableOnDefault
  | none, some c => c.Disable == 0
  | none, none => !m.options.DisableOnDefault

/-! ## The registry -/

/-- A Go `map[string]*Control`, embedded as an association list. A Go map holds at
most one value per key (`uniqueKeys`); the order of the list carries no meaning:
the order in which `range` yields the entries is chosen by the runtime and is an
explicit parameter of the loops below. -/
abbrev Managers := List (String × Control)

/-- A map holds at most one entry per key. -/
def Managers.uniqueKeys (m : Managers) : Prop :=
  (m.map Prod.fst).Nodup

instance (m : Managers) : Decidable m.uniqueKeys :=
  inferInstanceAs (Decidable (List.Nodup _))

/-- The map assignment `m[k] = v`: any entry under `k` is replaced. -/
def Managers.set (m : Managers) (k : String) (v : Control) : Managers :=
  (k, v) :: m.filter (fun e => e.1 != k)

/-- The map read `v, ok := m[k]`; a missing key yields `(nil, false)`. -/
def Managers.get (m : Managers) (k : String) : Option Control × Bool :=
  match m.lookup k with
  | some v => (some v, true)
  | none => (none, false)

/-- The package-level variables `db` and `managers`, and the next free address of
the allocator (used for the identity of `Control` objects). -/
structure Globals where
  db : Sqlite
  managers : Managers
  nextAddr : Nat

/-- `func newctrl(service string, o *Options) *Control`. The result `none` stands
for `panic(err)`; the returned state is the state of the package-level variables
at the moment the function returns or panics. `createFault` is the environment's
decision whether `db.Create` fails. -/
def newctrl (createFault : Bool) (service : String) (o : Option Options) (w : Globals) :
    Globals × Option Control :=
  let m : Control :=
    { addr := w.nextAddr
      service := service
      options := match o with
        | none => { DisableOnDefault := false, Help := "" }
        | some opts => opts }
  -- mu.Lock(); managers[service] = m; mu.Unlock()
  let w1 : Globals :=
    { db := w.db, managers := w.managers.set service m, nextAddr := w.nextAddr + 1 }
  -- err := db.Create(service, &grpcfg{}); if err != nil { panic(err) }
  match w1.db.Create createFault service with
  | none => (w1, none)
  | some db' => ({ db := db', managers := w1.managers, nextAddr := w1.nextAddr }, some m)

/-- `func Lookup(service string) (*Control, bool)`: a read of `managers`; the
function writes no package-level variable, so it has no state result. -/
def Lookup (w : Globals) (service : String) : Option Control × Bool :=
  w.managers.get service

/-- `func copyMap(m map[string]*Control) map[string]*Control`: a fresh map filled by
`ret[k] = v` for every entry of `m`, in the order `pick m` in which the runtime
yields the entries of `m`. -/
def copyMap (pick : Managers → Managers) (m : Managers) : Managers :=
  (pick m).foldl (fun ret e => ret.set e.1 e.2) []

/-- The loop `for k, v := range m { if !iterator(k, v) { return } }` of `ForEach`
over the entries in the order the runtime yields them. Besides the final state
it returns the log of the visitor calls made, each with the visitor's result. -/
def rangeLoop {σ : Type} (iterator : String → Control → σ → Bool × σ) :
    List (String × Control) → σ → σ × List ((String × Control) × Bool)
  | [], s => (s, [])
  | (k, v) :: rest, s =>
    let r := iterator k v s
    if r.1 then
      let out := rangeLoop iterator rest r.2
      (out.1, ((k, v), true) :: out.2)
    else (r.2, [((k, v), false)])

/-- `func ForEach(iterator func(key string, manager *Control) bool)`. The visitor is
a closure: it may read and write the package-level variables and its own captured
variables (`σ`). `pickCopy` and `pickIter` are the orders in which the runtime
yields the map entries in the `range` of `copyMap` and in the `range` of
`ForEach`. -/
def ForEach {σ : Type} (pickCopy pickIter : Managers → Managers)
    (iterator : String → Control → Globals × σ → Bool × (Globals × σ))
    (s : Globals × σ) : (Globals × σ) × List ((String × Control) × Bool) :=
  let m := copyMap pickCopy s.1.managers
  rangeLoop iterator (pickIter m) s

/-! ## Events, the gate predicate and the command handlers -/

/-- The negation of an `int64`: the result wraps around, so the negation of
`-2^63` is `-2^63` itself. -/
def neg64 (x : Int) : Int :=
  (-x + 2 ^ 63) % 2 ^ 64 - 2 ^ 63

/-- The fields of the library type `zero.Event` that `rule.go` reads. -/
structure Event where
  GroupID : Int
  UserID : Int
deriving DecidableEq, Repr

/-- A value stored in `ctx.State` (`map[string]interface{}`): a `*Control` or
something else. -/
inductive Value where
  | manager (m : Control)
  | other (s : String)
deriving DecidableEq, Repr

/-- The fields of the library type `zero.Ctx` that `rule.go` uses: the per-request
state map and the event. -/
structure Ctx where
  State : String → Option Value
  Event : Event

/-- The acting scope of an event, computed alike in `Handler` (lines 109-113) and
in the command handler (lines 172-176): `grp := ctx.Event.GroupID; if grp == 0
{ grp = -ctx.Event.UserID }`. -/
def eventScope (ev : Event) : Int :=
  if ev.GroupID == 0 then neg64 ev.UserID else ev.GroupID

/-- `func (m *Control) Handler() zero.Rule`: the returned predicate, applied to
`ctx`. It returns its result, the context and the store after the call. -/
def Control.Handler (m : Control) (f : Faults) (db : Sqlite) (ctx : Ctx) :
    Bool × Ctx × Sqlite :=
  -- ctx.State["manager"] = m
  let ctx1 : Ctx :=
    { State := Function.update ctx.State "manager" (some (Value.manager m))
      Event := ctx.Event }
  let r := m.IsEnabledIn f db (eventScope ctx1.Event)
  (r.1, ctx1, r.2)

/-- The fields of `extension.CommandModel` filled by `ctx.Parse`: the command word
and its argument. -/
structure CommandModel where
  Command : String
  Args : String
deriving DecidableEq, Repr

/-- `strings.Contains(s, substr)`. -/
def Contains (s substr : String) : Bool :=
  s.toList.tails.any (fun t => substr.toList.isPrefixOf t)

/-- What a run of a command handler did: the texts passed to `ctx.SendChain`, in
order; the store it leaves; whether it ended in the run-time panic of a nil
pointer dereference. -/
structure Run where
  sent : List String
  db : Sqlite
  panicked : Bool

/-- The handler of the commands enable/disable/enableall/disableall (lines
165-187), with the parsed `model` as input. `service` is the pointer returned
by `Lookup` (`none` is nil); `service.Enable(grp)` and `service.Disable(grp)`
start with `m.Lock()` on the embedded mutex, which on a nil `service` is a nil
pointer dereference, before any storage call. -/
def commandHandler (fault : Bool) (w : Globals) (ev : Event) (model : CommandModel) : Run :=
  let found := Lookup w model.Args
  -- if !ok { ctx.SendChain(...) }: no return follows
  let sent0 : List String := if !found.2 then ["没有找到指定服务!"] else []
  let grp := eventScope ev
  let grp := if Contains model.Command "全局" || Contains model.Command "all" then 0 else grp
  if Contains model.Command "启用" || Contains model.Command "enable" then
    match found.1 with
    | none => { sent := sent0, db := w.db, panicked := true }
    | some m =>
      { sent := sent0 ++ ["已启用服务: " ++ model.Args]
        db := m.Enable fault w.db grp
        panicked := false }
  else
    match found.1 with
    | none => { sent := sent0, db := w.db, panicked := true }
    | some m =>
      { sent := sent0 ++ ["已禁用服务: " ++ model.Args]
        db := m.Disable fault w.db grp
        panicked := false }

/-- The handler of the command usage (lines 190-201), with the parsed `model` as
input; `service.options.Help` on a nil `service` is a nil pointer
dereference. -/
def usageHandler (w : Globals) (model : CommandModel) : Run :=
  let found := Lookup w model.Args
  let sent0 : List String := if !found.2 then ["没有找到指定服务!"] else []
  match found.1 with
  | none => { sent := sent0, db := w.db, panicked := true }
  | some m =>
    if m.options.Help != "" then
      { sent := sent0 ++ [m.options.Help], db := w.db, panicked := false }
    else
      { sent := sent0 ++ ["该服务无帮助!"], db := w.db, panicked := false }

/-! ## The registry with maps as references

In Go a map value is a reference to a map object, and two references may be
aliases of one object. The definitions above treat the registry as a value, which
is enough wherever a single reference is involved. `ForEach` holds two: the
package-level `managers` and the local copy. The definitions below embed
`newctrl`, `copyMap` and `ForEach` over an explicit heap of map objects, so that
writing through one reference is seen through every alias of it. -/

/-- A Go map value: the address of a map object in the heap. -/
abbrev MapRef := Nat

/-- The heap of map objects: the object at address `a` is the `a`-th element. -/
abbrev MapHeap := List Managers

/-- The map object a reference points to. -/
def MapHeap.deref (h : MapHeap) (a : MapRef) : Managers :=
  h.getD a []

/-- The assignment `m[k] = v` through the reference `a`: the object is updated in
place. -/
def MapHeap.assign (h : MapHeap) (a : MapRef) (k : String) (v : Control) : MapHeap :=
  h.set a ((MapHeap.deref h a).set k v)

/-- The allocation `make(map[string]*Control, n)`: a fresh empty map object at the
next free address. -/
def MapHeap.make (h : MapHeap) : MapHeap × MapRef :=
  (h ++ [[]], h.length)

/-- The package-level variables, `managers` being a reference into the heap. -/
structure RefGlobals where
  heap : MapHeap
  managers : MapRef
  db : Sqlite
  nextAddr : Nat

/-- `func newctrl`, as `newctrl` above, the assignment `managers[service] = m` going
through the reference `managers`. -/
def Ref.newctrl (createFault : Bool) (service : String) (o : Option Options)
    (w : RefGlobals) : RefGlobals × Option Control :=
  let m : Control :=
    { addr := w.nextAddr
      service := service
      options := match o with
        | none => { DisableOnDefault := false, Help := "" }
        | some opts => opts }
  let w1 : RefGlobals :=
    { heap := MapHeap.assign w.heap w.managers service m
      managers := w.managers
      db := w.db
      nextAddr := w.nextAddr + 1 }
  match w1.db.Create createFault service with
  | none => (w1, none)
  | some db' =>
    ({ heap := w1.heap, managers := w1.managers, db := db', nextAddr := w1.nextAddr }, some m)

/-- `func copyMap`: `ret := make(...)` allocates a fresh map object, the loop
`for k, v := range m { ret[k] = v }` fills it, and the reference `ret` is
returned. The body of the loop writes `ret` only, so the entries of `m` do not
change while the loop runs and `range` yields each of them once, in the order
`pick` of the runtime. -/
def Ref.copyMap (pick : Managers → Managers) (h : MapHeap) (m : MapRef) : MapHeap × MapRef :=
  let a := MapHeap.make h
  ((pick (MapHeap.deref a.1 m)).foldl (fun hp e => MapHeap.assign hp a.2 e.1 e.2) a.1, a.2)

/-- The loop `for k, v := range m { if !iterator(k, v) { return } }` of `ForEach` for
a map reference `m` whose object the visitor may change while the loop runs. At
every step the runtime (`next`) is given the entries of `m` at the start of the
loop, its entries now, and the keys produced so far, and either yields the next
entry or ends the loop. `fuel` bounds the number of steps; `none` stands for a
loop that has not ended within the bound. The result is the final state and the
log of the visitor calls. -/
def Ref.rangeLoop {σ : Type}
    (next : Managers → Managers → List String → Option (String × Control))
    (iterator : String → Control → RefGlobals × σ → Bool × (RefGlobals × σ))
    (m : MapRef) (start : Managers) :
    Nat → List String → RefGlobals × σ →
      Option ((RefGlobals × σ) × List ((String × Control) × Bool))
  | 0, _, _ => none
  | fuel + 1, seen, s =>
    match next start (MapHeap.deref s.1.heap m) seen with
    | none => some (s, [])
    | some e =>
      let r := iterator e.1 e.2 s
      if r.1 then
        match Ref.rangeLoop next iterator m start fuel (e.1 :: seen) r.2 with
        | none => none
        | some out => some (out.1, (e, true) :: out.2)
      else some (r.2, [(e, false)])

/-- `func ForEach`: `m := copyMap(managers)`, then the loop over the reference
`m`. -/
def Ref.ForEach {σ : Type} (pick : Managers → Managers)
    (next : Managers → Managers → List String → Option (String × Control))
    (fuel : Nat)
    (iterator : String → Control → RefGlobals × σ → Bool × (RefGlobals × σ))
    (s : RefGlobals × σ) : Option ((RefGlobals × σ) × List ((String × Control) × Bool)) :=
  let c := Ref.copyMap pick s.1.heap s.1.managers
  let s1 : RefGlobals × σ :=
    ({ heap := c.1, managers := s.1.managers, db := s.1.db, nextAddr := s.1.nextAddr }, s.2)
  Ref.rangeLoop next iterator c.2 (MapHeap.deref c.1 c.2) fuel [] s1

/-- One runtime for `range`: the first entry of the map whose key has not been
produced yet. -/
def firstUnseen (_start now : Managers) (seen : List String) : Option (String × Control) :=
  now.find? (fun e => !seen.contains e.1)

/-! ## Helpers for stating the properties -/

/-- The value `IsEnabledIn` derives from the outcomes of its two lookups (`none`: the
lookup failed). -/
def resolveLookups (defaultDisabled : Bool) : Option grpcfg → Option grpcfg → Bool
  | some c0, some c => if c0.Disable ≠ 0 then false else c.Disable == 0
  | some c0, none => if c0.Disable ≠ 0 then false else !defaultDisabled
  | none, some c => c.Disable == 0
  | none, none => !defaultDisabled

/-- The store in which namespace `s` holds no row for scope `k`, and which is
otherwise as `db`. -/
def Sqlite.without (db : Sqlite) (s : String) (k : Int) : Sqlite :=
  Function.update db s ((db s).filter (fun x => x.GroupID != k))

/-- The lookup of the scope-0 row of namespace `s` yields a disabled row. -/
def globalDisabled (db : Sqlite) (s : String) : Prop :=
  ∃ c, db.Find false s ALL = some c ∧ c.Disable ≠ 0

/-- One call on a `Control`, with the environment's decision on storage faults. -/
inductive Op where
  | enable (fault : Bool) (g : Int)
  | disable (fault : Bool) (g : Int)
  | isEnabledIn (f : Faults) (h : Int)
deriving DecidableEq, Repr

/-- The store after one call on `m`. -/
def Op.run (m : Control) (db : Sqlite) : Op → Sqlite
  | Op.enable fault g => m.Enable fault db g
  | Op.disable fault g => m.Disable fault db g
  | Op.isEnabledIn f h => (m.IsEnabledIn f db h).2

/-- The store after a finite sequence of calls on `m`. -/
def runOps (m : Control) (db : Sqlite) (ops : List Op) : Sqlite :=
  ops.foldl (Op.run m) db

/-- The calls the invariant of a disabled scope-0 row admits: every call except
`Enable(0)`; in `IsEnabledIn` the lookup of the scope-0 row does not hit a storage
fault. -/
def Op.admitted : Op → Prop
  | Op.enable _ g => g ≠ 0
  | Op.disable _ _ => True
  | Op.isEnabledIn f _ => f.findAll = false

instance (op : Op) : Decidable op.admitted := by
  cases op <;> unfold Op.admitted <;> infer_instance

/-! ## Lemmas on the store -/

theorem find?_upsert_same (t : Table) (r : grpcfg) :
    (t.filter (fun x => x.GroupID != r.GroupID) ++ [r]).find? (fun x => x.GroupID == r.GroupID)
      = some r := by
  induction t with
  | nil => simp
  | cons a t ih =>
    by_cases h : a.GroupID = r.GroupID
    · rw [List.filter_cons_of_neg (by simp [h])]; exact ih
    · rw [List.filter_cons_of_pos (by simp [h]), List.cons_append,
        List.find?_cons_of_neg _ (by simp [h])]
      exact ih

theorem find?_upsert_other (t : Table) (r : grpcfg) (g : Int) (hg : r.GroupID ≠ g) :
    (t.filter (fun x => x.GroupID != r.GroupID) ++ [r]).find? (fun x => x.GroupID == g)
      = t.find? (fun x => x.GroupID == g) := by
  induction t with
  | nil => simp [hg]
  | cons a t ih =>
    by_cases h : a.GroupID = r.GroupID
    · have hne : a.GroupID ≠ g := by rw [h]; exact hg
      rw [List.filter_cons_of_neg (by simp [h]), ih, List.find?_cons_of_neg _ (by simp [hne])]
    · rw [List.filter_cons_of_pos (by simp [h]), List.cons_append]
      by_cases h2 : a.GroupID = g
      · rw [List.find?_cons_of_pos _ (by simp [h2]), List.find?_cons_of_pos _ (by simp [h2])]
      · rw [List.find?_cons_of_neg _ (by simp [h2]), List.find?_cons_of_neg _ (by simp [h2])]
        exact ih

theorem find?_of_mem_unique (t : Table) (r : grpcfg) (hu : t.uniqueScopes) (hr : r ∈ t) :
    t.find? (fun x => x.GroupID == r.GroupID) = some r := by
  induction t with
  | nil => cases hr
  | cons a t ih =>
    have hu' : a.GroupID ∉ t.map grpcfg.GroupID ∧ (t.map grpcfg.GroupID).Nodup := by
      simpa [Table.uniqueScopes] using hu
    rcases List.mem_cons.1 hr with rfl | hmem
    · rw [List.find?_cons_of_pos _ (by simp)]
    · have hne : a.GroupID ≠ r.GroupID := by
        intro h
        exact hu'.1 (h ▸ List.mem_map_of_mem grpcfg.GroupID hmem)
      rw [List.find?_cons_of_neg _ (by simp [hne])]
      exact ih hu'.2 hmem

theorem Find_false (db : Sqlite) (s : String) (g : Int) :
    db.Find false s g = (db s).find? (fun x => x.GroupID == g) := by
  simp [Sqlite.Find]

theorem Find_eq_none_of_absent (db : Sqlite) (s : String) (g : Int)
    (h : ∀ r ∈ db s, r.GroupID ≠ g) : db.Find false s g = none := by
  rw [Find_false, List.find?_eq_none]
  intro r hr
  simpa using h r hr

theorem mem_of_Find (db : Sqlite) (s : String) (g : Int) (c : grpcfg)
    (h : db.Find false s g = some c) : c ∈ db s ∧ c.GroupID = g := by
  rw [Find_false] at h
  exact ⟨List.mem_of_find?_eq_some h, by simpa using List.find?_some h⟩

theorem Find_Insert_same (db : Sqlite) (s : String) (r : grpcfg) (db' : Sqlite)
    (h : db.Insert false s r = some db') : db'.Find false s r.GroupID = some r := by
  simp only [Sqlite.Insert, Bool.false_eq_true, if_false, Option.some.injEq] at h
  subst h
  simp only [Sqlite.Find, Bool.false_eq_true, if_false, Function.update_same]
  exact find?_upsert_same (db s) r

theorem Find_Insert_other (db : Sqlite) (s : String) (r : grpcfg) (db' : Sqlite) (g : Int)
    (hg : r.GroupID ≠ g) (h : db.Insert false s r = some db') :
    db'.Find false s g = db.Find false s g := by
  simp only [Sqlite.Insert, Bool.false_eq_true, if_false, Option.some.injEq] at h
  subst h
  simp only [Sqlite.Find, Bool.false_eq_true, if_false, Function.update_same]
  exact find?_upsert_other (db s) r g hg

theorem Find_Enable_same (m : Control) (db : Sqlite) (g : Int) :
    (m.Enable false db g).Find false m.service g = some ⟨g, 0⟩ :=
  Find_Insert_same db m.service ⟨g, 0⟩ _ rfl

theorem Find_Disable_same (m : Control) (db : Sqlite) (g : Int) :
    (m.Disable false db g).Find false m.service g = some ⟨g, 1⟩ :=
  Find_Insert_same db m.service ⟨g, 1⟩ _ rfl

theorem Find_Enable_other (m : Control) (db : Sqlite) (g h : Int) (hne : g ≠ h) :
    (m.Enable false db g).Find false m.service h = db.Find false m.service h :=
  Find_Insert_other db m.service ⟨g, 0⟩ _ h hne rfl

theorem Find_Disable_other (m : Control) (db : Sqlite) (g h : Int) (hne : g ≠ h) :
    (m.Disable false db g).Find false m.service h = db.Find false m.service h :=
  Find_Insert_other db m.service ⟨g, 1⟩ _ h hne rfl

theorem upsert_filter_same (t : Table) (r : grpcfg) :
    (t.filter (fun x => x.GroupID != r.GroupID) ++ [r]).filter (fun x => x.GroupID == r.GroupID)
      = [r] := by
  rw [List.filter_append, List.filter_filter]
  have h1 : t.filter (fun a => (a.GroupID == r.GroupID) && (a.GroupID != r.GroupID)) = [] := by
    rw [List.filter_eq_nil_iff]
    intro a _
    by_cases h : a.GroupID = r.GroupID <;> simp [h]
  rw [h1]
  simp

theorem upsert_filter_other (t : Table) (r : grpcfg) :
    (t.filter (fun x => x.GroupID != r.GroupID) ++ [r]).filter (fun x => x.GroupID != r.GroupID)
      = t.filter (fun x => x.GroupID != r.GroupID) := by
  rw [List.filter_append, List.filter_filter]
  simp

theorem Enable_row_same (m : Control) (db : Sqlite) (g : Int) (r : grpcfg)
    (hr : r ∈ (m.Enable false db g) m.service) (hg : r.GroupID = g) : r = ⟨g, 0⟩ := by
  have hf : ((m.Enable false db g) m.service).filter (fun x => x.GroupID == g) = [⟨g, 0⟩] := by
    simp only [Control.Enable, Sqlite.Insert, Bool.false_eq_true, if_false,
      Function.update_same]
    exact upsert_filter_same (db m.service) ⟨g, 0⟩
  have : r ∈ ((m.Enable false db g) m.service).filter (fun x => x.GroupID == g) :=
    List.mem_filter.2 ⟨hr, by simp [hg]⟩
  rw [hf] at this
  exact List.mem_singleton.1 this

/-! ## Lemmas on the resolution -/

theorem IsEnabledIn_fst (m : Control) (fi : Bool) (db : Sqlite) (g : Int) :
    (m.IsEnabledIn ⟨false, false, fi⟩ db g).1 = resolution m db g := by
  unfold Control.IsEnabledIn resolution ALL
  simp only []
  cases h0 : db.Find false m.service 0 <;> cases hg : db.Find false m.service g
  · cases hd : m.options.DisableOnDefault <;> simp [hd]
  · simp
  · rename_i c0
    by_cases hc : c0.Disable = 0
    · cases hd : m.options.DisableOnDefault <;> simp [hc, hd]
    · simp [hc]
  · rename_i c0 c
    by_cases hc : c0.Disable = 0
    · simp [hc]
    · simp [hc]

theorem IsEnabledIn_of_global_disabled (m : Control) (fg fi : Bool) (db : Sqlite) (g : Int)
    (c : grpcfg) (h : db.Find false m.service ALL = some c) (hc : c.Disable ≠ 0) :
    m.IsEnabledIn ⟨false, fg, fi⟩ db g = (false, db) := by
  unfold Control.IsEnabledIn
  simp [h, hc]

theorem resolution_of_enabled_row (m : Control) (db : Sqlite) (g : Int)
    (h0 : ∀ r ∈ db m.service, r.GroupID = ALL → r.Disable = 0)
    (hg : db.Find false m.service g = some ⟨g, 0⟩) : resolution m db g = true := by
  unfold resolution
  rw [hg]
  cases h : db.Find false m.service 0 with
  | none => simp
  | some c0 =>
    have hc := mem_of_Find db m.service 0 c0 h
    have : c0.Disable = 0 := h0 c0 hc.1 hc.2
    simp [this]

/-! ## Resolution and mutation of one `Control` -/

/-- C1: for every store, every `Control` and every scope, with lookups that fail
exactly when the row is absent (and whatever happens to the write-back),
`IsEnabledIn` returns the three-step resolution of the specification. -/
theorem C1_isEnabledIn_is_resolution (m : Control) (fi : Bool) (db : Sqlite) (g : Int) :
    (m.IsEnabledIn ⟨false, false, fi⟩ db g).1 = resolution m db g :=
  IsEnabledIn_fst m fi db g

/-- C2: if the lookup of the scope-0 row yields a disabled row (in particular, if a
table with one row per scope holds a disabled scope-0 row), `IsEnabledIn g` returns
`false` for every `g`, whatever the row for `g`; and `Disable(0)` followed by
`IsEnabledIn g` returns `false` even after an earlier `Enable g`. -/
theorem C2_global_disable_wins (m : Control) (db : Sqlite) (g : Int) :
    (∀ c fg fi, db.Find false m.service ALL = some c → c.Disable ≠ 0 →
        (m.IsEnabledIn ⟨false, fg, fi⟩ db g).1 = false) ∧
    (∀ d, (db m.service).uniqueScopes → (⟨ALL, d⟩ : grpcfg) ∈ db m.service → d ≠ 0 →
        (m.IsEnabledIn noFaults db g).1 = false) ∧
    (m.IsEnabledIn noFaults (m.Disable false (m.Enable false db g) ALL) g).1 = false := by
  refine ⟨?_, ?_, ?_⟩
  · intro c fg fi h hc
    rw [IsEnabledIn_of_global_disabled m fg fi db g c h hc]
  · intro d hu hmem hd
    have hf : db.Find false m.service ALL = some ⟨ALL, d⟩ := by
      rw [Find_false]
      exact find?_of_mem_unique (db m.service) ⟨ALL, d⟩ hu hmem
    show (m.IsEnabledIn ⟨false, false, false⟩ db g).1 = false
    rw [IsEnabledIn_of_global_disabled m false false db g _ hf hd]
  · show (m.IsEnabledIn ⟨false, false, false⟩ _ g).1 = false
    rw [IsEnabledIn_of_global_disabled m false false _ g ⟨ALL, 1⟩
      (Find_Disable_same m _ ALL) (by decide)]

/-- Witness of C2 on the scenario of the specification: service "weather", scope
555 enabled, scope 0 disabled. -/
theorem C2_global_disable_wins_witness :
    Sqlite.Find (fun _ => [⟨555, 0⟩, ⟨0, 1⟩]) false "weather" ALL = some ⟨0, 1⟩ ∧
    (Control.IsEnabledIn ⟨0, "weather", ⟨true, ""⟩⟩ noFaults
      (fun _ => [⟨555, 0⟩, ⟨0, 1⟩]) 555).1 = false :=
  ⟨by decide,
   (C2_global_disable_wins ⟨0, "weather", ⟨true, ""⟩⟩ (fun _ => [⟨555, 0⟩, ⟨0, 1⟩]) 555).1
     ⟨0, 1⟩ false false (by decide) (by decide)⟩

/-- C3: when the table of the service holds no scope-0 row and no row for `g`, the
first `IsEnabledIn g` returns the negation of `DisableOnDefault`, and a second
`IsEnabledIn g` on the store left by the first returns the same value. -/
theorem C3_default_is_sticky (m : Control) (db : Sqlite) (g : Int)
    (h0 : ∀ r ∈ db m.service, r.GroupID ≠ ALL) (hg : ∀ r ∈ db m.service, r.GroupID ≠ g) :
    (m.IsEnabledIn noFaults db g).1 = !m.options.DisableOnDefault ∧
    (m.IsEnabledIn noFaults (m.IsEnabledIn noFaults db g).2 g).1
      = (m.IsEnabledIn noFaults db g).1 := by
  have f0 : db.Find false m.service ALL = none := Find_eq_none_of_absent db m.service ALL h0
  have f0' : db.Find false m.service 0 = none := f0
  have fg : db.Find false m.service g = none := Find_eq_none_of_absent db m.service g hg
  have hfirst : m.IsEnabledIn noFaults db g =
      (!m.options.DisableOnDefault,
        if m.options.DisableOnDefault then m.Disable false db g else m.Enable false db g) := by
    unfold Control.IsEnabledIn noFaults
    simp only [f0, fg]
    cases m.options.DisableOnDefault <;> simp
  rw [hfirst]
  refine ⟨rfl, ?_⟩
  show (m.IsEnabledIn ⟨false, false, false⟩ _ g).1 = _
  rw [IsEnabledIn_fst]
  unfold resolution
  cases hd : m.options.DisableOnDefault
  · simp only [Bool.false_eq_true, if_false]
    rw [Find_Enable_same]
    by_cases hz : g = 0
    · subst hz; rw [Find_Enable_same]; simp
    · rw [Find_Enable_other m db g 0 hz, f0']; simp
  · simp only [if_true]
    rw [Find_Disable_same]
    by_cases hz : g = 0
    · subst hz; rw [Find_Disable_same]; simp
    · rw [Find_Disable_other m db g 0 hz, f0']; simp

/-- Witness of C3 on the scenario of the specification: "weather" registered with
`DisableOnDefault = true`, empty table, scope 555. -/
theorem C3_default_is_sticky_witness :
    (∀ r ∈ ((fun _ => []) : Sqlite) "weather", r.GroupID ≠ ALL) ∧
    (∀ r ∈ ((fun _ => []) : Sqlite) "weather", r.GroupID ≠ 555) ∧
    (Control.IsEnabledIn ⟨0, "weather", ⟨true, ""⟩⟩ noFaults (fun _ => []) 555).1 = false :=
  ⟨by simp, by simp,
   (C3_default_is_sticky ⟨0, "weather", ⟨true, ""⟩⟩ (fun _ => []) 555
     (by simp) (by simp)).1⟩

/-- C4: for every scope `g` (0 included) and every store, if after `Enable g` the
table holds no disabled scope-0 row, then `IsEnabledIn g` returns `true`. -/
theorem C4_enable_then_enabled (m : Control) (db : Sqlite) (g : Int)
    (h : ∀ r ∈ (m.Enable false db g) m.service, r.GroupID = ALL → r.Disable = 0) :
    (m.IsEnabledIn noFaults (m.Enable false db g) g).1 = true := by
  show (m.IsEnabledIn ⟨false, false, false⟩ _ g).1 = true
  rw [IsEnabledIn_fst]
  exact resolution_of_enabled_row m _ g h (Find_Enable_same m db g)

/-- Witness of C4: scope 555 had a disabled row, the scope-0 row is enabled. -/
theorem C4_enable_then_enabled_witness :
    (∀ r ∈ (Control.Enable ⟨0, "weather", ⟨true, ""⟩⟩ false
        (fun _ => [⟨555, 1⟩, ⟨0, 0⟩]) 555) "weather", r.GroupID = ALL → r.Disable = 0) ∧
    (Control.IsEnabledIn ⟨0, "weather", ⟨true, ""⟩⟩ noFaults
      (Control.Enable ⟨0, "weather", ⟨true, ""⟩⟩ false
        (fun _ => [⟨555, 1⟩, ⟨0, 0⟩]) 555) 555).1 = true :=
  ⟨by decide,
   C4_enable_then_enabled ⟨0, "weather", ⟨true, ""⟩⟩ (fun _ => [⟨555, 1⟩, ⟨0, 0⟩]) 555
     (by decide)⟩

/-- C5, as stated, fails: with a disabled scope-0 row in the prior store,
`Disable 555`, `Enable 555`, `IsEnabledIn 555` returns `false`. -/
theorem C5_last_write_wins_counterexample :
    (Control.IsEnabledIn ⟨0, "weather", ⟨false, ""⟩⟩ noFaults
      (Control.Enable ⟨0, "weather", ⟨false, ""⟩⟩ false
        (Control.Disable ⟨0, "weather", ⟨false, ""⟩⟩ false (fun _ => [⟨0, 1⟩]) 555) 555)
      555).1 = false := by
  decide

/-- C5, amended: for every scope `g` and every prior store, if after `Disable g`
and `Enable g` the table holds no disabled scope-0 row, then `IsEnabledIn g`
returns `true`; for `g = 0` this is always the case. When the scope-0 lookup
of the prior store yields a disabled row and `g ≠ 0`, `IsEnabledIn g` returns
`false`. -/
theorem C5_last_write_wins_amended (m : Control) (db : Sqlite) (g : Int) :
    ((∀ r ∈ (m.Enable false (m.Disable false db g) g) m.service,
        r.GroupID = ALL → r.Disable = 0) →
      (m.IsEnabledIn noFaults (m.Enable false (m.Disable false db g) g) g).1 = true) ∧
    (g = ALL →
      (m.IsEnabledIn noFaults (m.Enable false (m.Disable false db g) g) g).1 = true) ∧
    (g ≠ ALL → globalDisabled db m.service →
      (m.IsEnabledIn noFaults (m.Enable false (m.Disable false db g) g) g).1 = false) := by
  have main : (∀ r ∈ (m.Enable false (m.Disable false db g) g) m.service,
        r.GroupID = ALL → r.Disable = 0) →
      (m.IsEnabledIn noFaults (m.Enable false (m.Disable false db g) g) g).1 = true := by
    intro h
    show (m.IsEnabledIn ⟨false, false, false⟩ _ g).1 = true
    rw [IsEnabledIn_fst]
    exact resolution_of_enabled_row m _ g h (Find_Enable_same m _ g)
  refine ⟨main, ?_, ?_⟩
  · intro hg
    apply main
    intro r hr h0
    rw [Enable_row_same m _ g r hr (by rw [h0, hg])]
  · rintro hg ⟨c, hc, hd⟩
    have hf : (m.Enable false (m.Disable false db g) g).Find false m.service ALL = some c := by
      rw [Find_Enable_other m _ g ALL hg, Find_Disable_other m db g ALL hg]
      exact hc
    show (m.IsEnabledIn ⟨false, false, false⟩ _ g).1 = false
    rw [IsEnabledIn_of_global_disabled m false false _ g c hf hd]

/-- Witness of the amended C5: a disabled row for scope 555 and an enabled scope-0
row; after `Disable 555` and `Enable 555` the service is enabled in 555. -/
theorem C5_last_write_wins_amended_witness :
    (∀ r ∈ (Control.Enable ⟨0, "weather", ⟨true, ""⟩⟩ false
        (Control.Disable ⟨0, "weather", ⟨true, ""⟩⟩ false
          (fun _ => [⟨555, 1⟩, ⟨0, 0⟩]) 555) 555) "weather",
      r.GroupID = ALL → r.Disable = 0) ∧
    (Control.IsEnabledIn ⟨0, "weather", ⟨true, ""⟩⟩ noFaults
      (Control.Enable ⟨0, "weather", ⟨true, ""⟩⟩ false
        (Control.Disable ⟨0, "weather", ⟨true, ""⟩⟩ false
          (fun _ => [⟨555, 1⟩, ⟨0, 0⟩]) 555) 555) 555).1 = true :=
  ⟨by decide,
   (C5_last_write_wins_amended ⟨0, "weather", ⟨true, ""⟩⟩
     (fun _ => [⟨555, 1⟩, ⟨0, 0⟩]) 555).1 (by decide)⟩

/-! ## The registry: registration and lookup -/

theorem Lookup_newctrl (cf : Bool) (name : String) (o : Option Options) (w : Globals) :
    Lookup (newctrl cf name o w).1 name
      = (some ⟨w.nextAddr, name, o.getD ⟨false, ""⟩⟩, true) := by
  cases cf <;> cases o <;> simp [newctrl, Sqlite.Create, Lookup, Managers.get, Managers.set]

theorem newctrl_snd (name : String) (o : Option Options) (w : Globals) :
    (newctrl false name o w).2 = some ⟨w.nextAddr, name, o.getD ⟨false, ""⟩⟩ := by
  cases o <;> simp [newctrl, Sqlite.Create]

/-- C6 (the code at the failing input): on the empty registry, `newctrl "foo"` with a
failing namespace creation panics, and at the panic the registry, which had no
entry for "foo" before the call, holds the new `Control` under "foo". The same
holds for every registry, name and options: the entry is stored before
`db.Create` is attempted. -/
theorem C6_failed_create_leaves_entry :
    (Lookup ⟨fun _ => [], [], 0⟩ "foo" = (none, false) ∧
      (newctrl true "foo" none ⟨fun _ => [], [], 0⟩).2 = none ∧
      Lookup (newctrl true "foo" none ⟨fun _ => [], [], 0⟩).1 "foo"
        = (some ⟨0, "foo", ⟨false, ""⟩⟩, true)) ∧
    (∀ (w : Globals) (name : String) (o : Option Options),
      (newctrl true name o w).2 = none ∧
      (Lookup (newctrl true name o w).1 name).2 = true) := by
  refine ⟨⟨by decide, by decide, by decide⟩, ?_⟩
  intro w name o
  refine ⟨by simp [newctrl, Sqlite.Create], ?_⟩
  rw [Lookup_newctrl]

/-- C7: (1) `Lookup name` returns `(nil, false)` when the registry holds no entry
under `name`; (2) a registration of `name` whose namespace creation succeeds
returns a `Control` `c`, and in the state it leaves `Lookup name` returns
`(c, true)`; (3) the same holds after any call of `newctrl` that returns.
`Lookup` only reads the registry (it has no state result), so repeating it on
the same state returns the same `c`. -/
theorem C7_lookup (w : Globals) (name : String) (o : Option Options) :
    ((∀ c, (name, c) ∉ w.managers) → Lookup w name = (none, false)) ∧
    (∃ c, (newctrl false name o w).2 = some c ∧
      Lookup (newctrl false name o w).1 name = (some c, true)) ∧
    (∀ cf w' c, newctrl cf name o w = (w', some c) → Lookup w' name = (some c, true)) := by
  refine ⟨?_, ?_, ?_⟩
  · intro h
    have hn : w.managers.lookup name = none := by
      rw [List.lookup_eq_none_iff]
      intro p hp
      rcases p with ⟨a, b⟩
      simp only [bne_iff_ne, ne_eq]
      intro hk
      exact h b (hk ▸ hp)
    simp [Lookup, Managers.get, hn]
  · exact ⟨_, newctrl_snd name o w, Lookup_newctrl false name o w⟩
  · intro cf w' c h
    have h1 : (newctrl cf name o w).1 = w' := by rw [h]
    have h2 : (newctrl cf name o w).2 = some c := by rw [h]
    rw [← h1, Lookup_newctrl]
    cases cf
    · rw [newctrl_snd] at h2
      rw [Option.some.inj h2]
    · simp [newctrl, Sqlite.Create] at h2

/-- Witness of C7: "foo" is not registered in a registry holding only "bar". -/
theorem C7_lookup_witness :
    (∀ c, (("foo", c) : String × Control) ∉ [("bar", (⟨0, "bar", ⟨false, ""⟩⟩ : Control))]) ∧
    Lookup ⟨fun _ => [], [("bar", ⟨0, "bar", ⟨false, ""⟩⟩)], 1⟩ "foo" = (none, false) :=
  ⟨by simp,
   (C7_lookup ⟨fun _ => [], [("bar", ⟨0, "bar", ⟨false, ""⟩⟩)], 1⟩ "foo" none).1 (by simp)⟩

/-! ## Lemmas on the registry -/

theorem Managers.set_of_fresh (m : Managers) (k : String) (v : Control)
    (h : ∀ e ∈ m, e.1 ≠ k) : m.set k v = (k, v) :: m := by
  unfold Managers.set
  rw [List.filter_eq_self.2]
  intro e he
  simpa using h e he

theorem foldl_set_perm (l acc : Managers) (hl : (l.map Prod.fst).Nodup)
    (hd : ∀ e ∈ l, ∀ a ∈ acc, a.1 ≠ e.1) :
    (l.foldl (fun ret e => ret.set e.1 e.2) acc).Perm (l ++ acc) := by
  induction l generalizing acc with
  | nil => simp
  | cons e rest ih =>
    have hl' : e.1 ∉ rest.map Prod.fst ∧ (rest.map Prod.fst).Nodup := by simpa using hl
    rw [List.foldl_cons, Managers.set_of_fresh acc e.1 e.2 (hd e (List.mem_cons_self _ _))]
    have hd' : ∀ x ∈ rest, ∀ a ∈ (e.1, e.2) :: acc, a.1 ≠ x.1 := by
      intro x hx a ha
      rcases List.mem_cons.1 ha with rfl | ha
      · intro h
        exact hl'.1 (h ▸ List.mem_map_of_mem Prod.fst hx)
      · exact hd x (List.mem_cons_of_mem _ hx) a ha
    refine (ih ((e.1, e.2) :: acc) hl'.2 hd').trans ?_
    exact (List.perm_middle).trans (by simp)

theorem copyMap_perm (pick : Managers → Managers) (m : Managers) (hu : m.uniqueKeys)
    (hp : (pick m).Perm m) : (copyMap pick m).Perm m := by
  unfold copyMap
  have hn : ((pick m).map Prod.fst).Nodup := ((hp.map Prod.fst).nodup_iff).2 hu
  have h := foldl_set_perm (pick m) [] hn (by simp)
  rw [List.append_nil] at h
  exact h.trans hp

theorem rangeLoop_log_prefix {σ : Type} (it : String → Control → σ → Bool × σ)
    (l : List (String × Control)) (s : σ) :
    ((rangeLoop it l s).2.map Prod.fst) <+: l := by
  induction l generalizing s with
  | nil => simp [rangeLoop]
  | cons e rest ih =>
    obtain ⟨k, v⟩ := e
    simp only [rangeLoop]
    split
    · simpa using ih _
    · simp [List.prefix_cons_inj, List.nil_prefix]

theorem rangeLoop_dropLast_true {σ : Type} (it : String → Control → σ → Bool × σ)
    (l : List (String × Control)) (s : σ) :
    ∀ x ∈ (rangeLoop it l s).2.dropLast, x.2 = true := by
  induction l generalizing s with
  | nil => simp [rangeLoop]
  | cons e rest ih =>
    obtain ⟨k, v⟩ := e
    simp only [rangeLoop]
    split
    · intro x hx
      cases hlog : (rangeLoop it rest (it k v s).2).2 with
      | nil => simp [hlog] at hx
      | cons b t =>
        simp only [hlog, List.dropLast_cons₂, List.mem_cons] at hx
        rcases hx with rfl | hx
        · rfl
        · exact ih (it k v s).2 x (by rw [hlog]; exact hx)
    · simp

theorem rangeLoop_all_true {σ : Type} (it : String → Control → σ → Bool × σ)
    (hit : ∀ k v t, (it k v t).1 = true) (l : List (String × Control)) (s : σ) :
    (rangeLoop it l s).2.map Prod.fst = l := by
  induction l generalizing s with
  | nil => simp [rangeLoop]
  | cons e rest ih =>
    obtain ⟨k, v⟩ := e
    simp only [rangeLoop, hit, if_true, List.map_cons, ih]

theorem upsert_uniqueScopes (t : Table) (r : grpcfg) (h : t.uniqueScopes) :
    Table.uniqueScopes (t.filter (fun x => x.GroupID != r.GroupID) ++ [r]) := by
  unfold Table.uniqueScopes at *
  rw [List.map_append, List.nodup_append]
  refine ⟨?_, by simp, ?_⟩
  · exact List.Nodup.sublist ((List.filter_sublist t).map grpcfg.GroupID) h
  · intro a ha hb
    simp only [List.map_cons, List.map_nil, List.mem_singleton] at hb
    subst hb
    obtain ⟨x, hx, hxa⟩ := List.mem_map.1 ha
    have := (List.mem_filter.1 hx).2
    simp [hxa] at this

theorem Insert_uniqueScopes (db db' : Sqlite) (fi : Bool) (s : String) (r : grpcfg)
    (h : db.Insert fi s r = some db') (n : String) (hu : (db n).uniqueScopes) :
    (db' n).uniqueScopes := by
  cases fi
  · simp only [Sqlite.Insert, Bool.false_eq_true, if_false, Option.some.injEq] at h
    subst h
    by_cases hn : n = s
    · subst hn
      rw [Function.update_same]
      exact upsert_uniqueScopes _ r hu
    · rw [Function.update_noteq hn]
      exact hu
  · simp [Sqlite.Insert] at h

theorem Enable_uniqueScopes (m : Control) (fi : Bool) (db : Sqlite) (g : Int) (n : String)
    (hu : (db n).uniqueScopes) : ((m.Enable fi db g) n).uniqueScopes := by
  unfold Control.Enable
  cases h : db.Insert fi m.service ⟨g, 0⟩ with
  | none => exact hu
  | some db' => exact Insert_uniqueScopes db db' fi m.service _ h n hu

theorem Disable_uniqueScopes (m : Control) (fi : Bool) (db : Sqlite) (g : Int) (n : String)
    (hu : (db n).uniqueScopes) : ((m.Disable fi db g) n).uniqueScopes := by
  unfold Control.Disable
  cases h : db.Insert fi m.service ⟨g, 1⟩ with
  | none => exact hu
  | some db' => exact Insert_uniqueScopes db db' fi m.service _ h n hu

theorem IsEnabledIn_snd_cases (m : Control) (f : Faults) (db : Sqlite) (g : Int) :
    (m.IsEnabledIn f db g).2 = db ∨ (m.IsEnabledIn f db g).2 = m.Disable f.insert db g ∨
      (m.IsEnabledIn f db g).2 = m.Enable f.insert db g := by
  unfold Control.IsEnabledIn
  simp only []
  split
  · exact Or.inl rfl
  · split
    · exact Or.inl rfl
    · split
      · exact Or.inr (Or.inl rfl)
      · exact Or.inr (Or.inr rfl)

/-- C9: for every store and scope `g`, `Enable g` (resp. `Disable g`) on a store
without fault leaves in the table of the service exactly one row for `g`, namely
`(g, 0)` (resp. `(g, 1)`), leaves the rows of every other scope as they were (so
`Enable 0`/`Disable 0` rewrite no row of a nonzero scope) and leaves every other
table as it was; and `Enable`, `Disable` and `IsEnabledIn`, with or without
faults, preserve "at most one row per scope" in every table. -/
theorem C9_writes_upsert (m : Control) (db : Sqlite) (g : Int) :
    ((m.Enable false db g) m.service).filter (fun r => r.GroupID == g) = [⟨g, 0⟩] ∧
    ((m.Enable false db g) m.service).filter (fun r => r.GroupID != g)
      = (db m.service).filter (fun r => r.GroupID != g) ∧
    ((m.Disable false db g) m.service).filter (fun r => r.GroupID == g) = [⟨g, 1⟩] ∧
    ((m.Disable false db g) m.service).filter (fun r => r.GroupID != g)
      = (db m.service).filter (fun r => r.GroupID != g) ∧
    (∀ n, n ≠ m.service → (m.Enable false db g) n = db n ∧ (m.Disable false db g) n = db n) ∧
    (∀ n, (db n).uniqueScopes → ∀ fi f,
      ((m.Enable fi db g) n).uniqueScopes ∧ ((m.Disable fi db g) n).uniqueScopes ∧
      (((m.IsEnabledIn f db g).2) n).uniqueScopes) := by
  refine ⟨?_, ?_, ?_, ?_, ?_, ?_⟩
  · simp only [Control.Enable, Sqlite.Insert, Bool.false_eq_true, if_false, Function.update_same]
    exact upsert_filter_same (db m.service) ⟨g, 0⟩
  · simp only [Control.Enable, Sqlite.Insert, Bool.false_eq_true, if_false, Function.update_same]
    exact upsert_filter_other (db m.service) ⟨g, 0⟩
  · simp only [Control.Disable, Sqlite.Insert, Bool.false_eq_true, if_false, Function.update_same]
    exact upsert_filter_same (db m.service) ⟨g, 1⟩
  · simp only [Control.Disable, Sqlite.Insert, Bool.false_eq_true, if_false, Function.update_same]
    exact upsert_filter_other (db m.service) ⟨g, 1⟩
  · intro n hn
    simp [Control.Enable, Control.Disable, Sqlite.Insert, Function.update_noteq hn]
  · intro n hu fi f
    refine ⟨Enable_uniqueScopes m fi db g n hu, Disable_uniqueScopes m fi db g n hu, ?_⟩
    rcases IsEnabledIn_snd_cases m f db g with h | h | h <;> rw [h]
    · exact hu
    · exact Disable_uniqueScopes m _ db g n hu
    · exact Enable_uniqueScopes m _ db g n hu

/-- Witness of C9: a table with one row per scope keeps one row per scope under
`Enable 555`. -/
theorem C9_writes_upsert_witness :
    Table.uniqueScopes [⟨555, 1⟩, ⟨0, 0⟩] ∧
    Table.uniqueScopes ((Control.Enable ⟨0, "weather", ⟨true, ""⟩⟩ false
      (fun _ => [⟨555, 1⟩, ⟨0, 0⟩]) 555) "weather") :=
  ⟨by decide,
   ((C9_writes_upsert ⟨0, "weather", ⟨true, ""⟩⟩ (fun _ => [⟨555, 1⟩, ⟨0, 0⟩]) 555).2.2.2.2.2
     "weather" (by decide) false noFaults).1⟩

/-! ## Scope 0 and "all groups" -/

/-- C10, as stated, fails: with a disabled row for scope 555, `Enable 0` followed
by `IsEnabledIn 555` returns `false`. -/
theorem C10_enable_all_counterexample :
    (Control.IsEnabledIn ⟨0, "weather", ⟨false, ""⟩⟩ noFaults
      (Control.Enable ⟨0, "weather", ⟨false, ""⟩⟩ false (fun _ => [⟨555, 1⟩]) ALL) 555).1
      = false := by
  decide

/-- C10, amended: `Enable 0` writes the scope-0 row only. After `Enable 0`,
`IsEnabledIn 0` returns `true`, and for `g ≠ 0` `IsEnabledIn g` returns what the
row for `g` says (`disabled == 0`) if there is one and the negation of
`DisableOnDefault` otherwise: the global override is lifted, the scopes keep
their own state. After `Disable 0`, `IsEnabledIn g` returns `false` for every
store and every scope `g`. -/
theorem C10_enable_all_amended (m : Control) (db : Sqlite) (g : Int) :
    (m.IsEnabledIn noFaults (m.Enable false db ALL) ALL).1 = true ∧
    (g ≠ ALL →
      (m.IsEnabledIn noFaults (m.Enable false db ALL) g).1
        = match db.Find false m.service g with
          | some c => c.Disable == 0
          | none => !m.options.DisableOnDefault) ∧
    (m.IsEnabledIn noFaults (m.Disable false db ALL) g).1 = false := by
  refine ⟨?_, ?_, ?_⟩
  · show (m.IsEnabledIn ⟨false, false, false⟩ _ ALL).1 = true
    rw [IsEnabledIn_fst]
    unfold resolution
    rw [show (0 : Int) = ALL from rfl, Find_Enable_same]
    rfl
  · intro hg
    show (m.IsEnabledIn ⟨false, false, false⟩ _ g).1 = _
    rw [IsEnabledIn_fst]
    unfold resolution
    rw [show (0 : Int) = ALL from rfl, Find_Enable_same,
      Find_Enable_other m db ALL g (Ne.symm hg)]
    cases db.Find false m.service g <;> rfl
  · show (m.IsEnabledIn ⟨false, false, false⟩ _ g).1 = false
    rw [IsEnabledIn_of_global_disabled m false false _ g ⟨ALL, 1⟩
      (Find_Disable_same m db ALL) (by decide)]

/-- Witness of the amended C10: scope 555 is enabled and the scope-0 row disabled;
after `Enable 0` the service is enabled in 555. -/
theorem C10_enable_all_amended_witness :
    (555 : Int) ≠ ALL ∧
    (Control.IsEnabledIn ⟨0, "weather", ⟨true, ""⟩⟩ noFaults
      (Control.Enable ⟨0, "weather", ⟨true, ""⟩⟩ false
        (fun _ => [⟨555, 0⟩, ⟨0, 1⟩]) ALL) 555).1 = true :=
  ⟨by decide,
   (C10_enable_all_amended ⟨0, "weather", ⟨true, ""⟩⟩
     (fun _ => [⟨555, 0⟩, ⟨0, 1⟩]) 555).2.1 (by decide)⟩

/-! ## The gate predicate -/

theorem neg64_eq_neg (u : Int) (h1 : -2 ^ 63 < u) (h2 : u < 2 ^ 63) : neg64 u = -u := by
  unfold neg64
  omega

/-- C11: for every `Control`, store, fault environment and event, the predicate
returned by `Handler` returns the value of `IsEnabledIn` (and leaves its store) at
the scope `G` when the group id `G` is not 0, and at the negated user id when
`G` is 0 (the `int64` negation, which is `-U` for every `U` other than `-2^63`);
it stores the `Control` under "manager" in the state of the context and changes
nothing else of the context; and for a positive group id and a positive user id
the group scope and the private scope differ and neither is 0. -/
theorem C11_handler_gates_by_scope (m : Control) (f : Faults) (db : Sqlite) (ctx : Ctx) :
    (ctx.Event.GroupID ≠ 0 →
      (m.Handler f db ctx).1 = (m.IsEnabledIn f db ctx.Event.GroupID).1 ∧
      (m.Handler f db ctx).2.2 = (m.IsEnabledIn f db ctx.Event.GroupID).2) ∧
    (ctx.Event.GroupID = 0 →
      (m.Handler f db ctx).1 = (m.IsEnabledIn f db (neg64 ctx.Event.UserID)).1 ∧
      (m.Handler f db ctx).2.2 = (m.IsEnabledIn f db (neg64 ctx.Event.UserID)).2) ∧
    (ctx.Event.GroupID = 0 → -2 ^ 63 < ctx.Event.UserID → ctx.Event.UserID < 2 ^ 63 →
      (m.Handler f db ctx).1 = (m.IsEnabledIn f db (-ctx.Event.UserID)).1 ∧
      (m.Handler f db ctx).2.2 = (m.IsEnabledIn f db (-ctx.Event.UserID)).2) ∧
    (m.Handler f db ctx).2.1.State "manager" = some (Value.manager m) ∧
    (∀ k, k ≠ "manager" → (m.Handler f db ctx).2.1.State k = ctx.State k) ∧
    (m.Handler f db ctx).2.1.Event = ctx.Event ∧
    (∀ g u : Event, 0 < g.GroupID → u.GroupID = 0 → 0 < u.UserID → u.UserID < 2 ^ 63 →
      eventScope g = g.GroupID ∧ eventScope u = -u.UserID ∧
      eventScope g ≠ eventScope u ∧ eventScope g ≠ ALL ∧ eventScope u ≠ ALL) := by
  refine ⟨?_, ?_, ?_, ?_, ?_, rfl, ?_⟩
  · intro hG
    simp [Control.Handler, eventScope, hG]
  · intro hG
    simp [Control.Handler, eventScope, hG]
  · intro hG h1 h2
    simp [Control.Handler, eventScope, hG, neg64_eq_neg _ h1 h2]
  · simp [Control.Handler]
  · intro k hk
    simp [Control.Handler, Function.update_noteq hk]
  · intro g u hg hu0 hu1 hu2
    have e1 : eventScope g = g.GroupID := by
      have : g.GroupID ≠ 0 := by omega
      simp [eventScope, this]
    have e2 : eventScope u = -u.UserID := by
      simp [eventScope, hu0, neg64_eq_neg u.UserID (by omega) hu2]
    refine ⟨e1, e2, ?_, ?_, ?_⟩
    · rw [e1, e2]; omega
    · rw [e1]; unfold ALL; omega
    · rw [e2]; unfold ALL; omega

/-- Witness of C11: a private event (group id 0) of user 42 is gated at scope -42;
a group event of group 555 has another, nonzero scope. -/
theorem C11_handler_gates_by_scope_witness :
    ((Control.Handler ⟨0, "weather", ⟨true, ""⟩⟩ noFaults (fun _ => [⟨-42, 0⟩])
        ⟨fun _ => none, ⟨0, 42⟩⟩).1
      = (Control.IsEnabledIn ⟨0, "weather", ⟨true, ""⟩⟩ noFaults (fun _ => [⟨-42, 0⟩]) (-42)).1) ∧
    eventScope ⟨555, 42⟩ ≠ eventScope ⟨0, 42⟩ :=
  ⟨((C11_handler_gates_by_scope ⟨0, "weather", ⟨true, ""⟩⟩ noFaults (fun _ => [⟨-42, 0⟩])
      ⟨fun _ => none, ⟨0, 42⟩⟩).2.2.1 rfl (by decide) (by decide)).1,
   ((C11_handler_gates_by_scope ⟨0, "weather", ⟨true, ""⟩⟩ noFaults (fun _ => [⟨-42, 0⟩])
      ⟨fun _ => none, ⟨0, 42⟩⟩).2.2.2.2.2.2 ⟨555, 42⟩ ⟨0, 42⟩
      (by decide) rfl (by decide) (by decide)).2.2.1⟩

/-! ## Registering a name twice -/

theorem lookup_filter_ne (l : Managers) (n k : String) (h : k ≠ n) :
    (l.filter (fun e => e.1 != n)).lookup k = l.lookup k := by
  induction l with
  | nil => rfl
  | cons e rest ih =>
    obtain ⟨a, b⟩ := e
    by_cases ha : a = n
    · subst ha
      have hk : (k == a) = false := by simpa using h
      rw [List.filter_cons_of_neg (by simp), List.lookup_cons, hk]
      exact ih
    · rw [List.filter_cons_of_pos (by simpa using ha), List.lookup_cons, List.lookup_cons, ih]

theorem get_set_other (l : Managers) (n k : String) (c : Control) (h : k ≠ n) :
    (l.set n c).get k = l.get k := by
  have hk : (k == n) = false := by simpa using h
  unfold Managers.get Managers.set
  rw [List.lookup_cons, hk, lookup_filter_ne l n k h]

theorem set_filter_same (l : Managers) (n : String) (c : Control) :
    (l.set n c).filter (fun e => e.1 == n) = [(n, c)] := by
  unfold Managers.set
  rw [List.filter_cons_of_pos (by simp), List.filter_filter]
  have : l.filter (fun a => (a.1 == n) && (a.1 != n)) = [] := by
    rw [List.filter_eq_nil_iff]
    intro a _
    by_cases h : a.1 = n <;> simp [h]
  rw [this]

theorem set_filter_other (l : Managers) (n : String) (c : Control) :
    (l.set n c).filter (fun e => e.1 != n) = l.filter (fun e => e.1 != n) := by
  unfold Managers.set
  rw [List.filter_cons_of_neg (by simp), List.filter_filter]
  simp

theorem newctrl_managers (cf : Bool) (n : String) (o : Option Options) (w : Globals) :
    (newctrl cf n o w).1.managers = w.managers.set n ⟨w.nextAddr, n, o.getD ⟨false, ""⟩⟩ ∧
    (newctrl cf n o w).1.nextAddr = w.nextAddr + 1 := by
  cases cf <;> cases o <;> simp [newctrl, Sqlite.Create]

/-- C12: for every registry, name `n` and options `o1`, `o2` (nil pointers included),
registering `n` with `o1` and then with `o2`, the namespace creation succeeding
both times, returns two distinct `Control`s `c1`, `c2`; the registry then holds
exactly one entry under `n`, namely `c2`, which carries `o2`; `Lookup n` returns
`(c2, true)`; and the entries of every other name are as before the two calls. -/
theorem C12_register_twice (w : Globals) (n : String) (o1 o2 : Option Options) :
    ∃ c1 c2,
      (newctrl false n o1 w).2 = some c1 ∧
      (newctrl false n o2 (newctrl false n o1 w).1).2 = some c2 ∧
      c1.addr ≠ c2.addr ∧
      c2.options = o2.getD ⟨false, ""⟩ ∧
      (newctrl false n o2 (newctrl false n o1 w).1).1.managers.filter (fun e => e.1 == n)
        = [(n, c2)] ∧
      Lookup (newctrl false n o2 (newctrl false n o1 w).1).1 n = (some c2, true) ∧
      (newctrl false n o2 (newctrl false n o1 w).1).1.managers.filter (fun e => e.1 != n)
        = w.managers.filter (fun e => e.1 != n) ∧
      (∀ k, k ≠ n → Lookup (newctrl false n o2 (newctrl false n o1 w).1).1 k = Lookup w k) := by
  refine ⟨_, _, newctrl_snd n o1 w, newctrl_snd n o2 _, ?_, rfl, ?_, ?_, ?_, ?_⟩
  · rw [(newctrl_managers false n o1 w).2]
    simp
  · rw [(newctrl_managers false n o2 _).1]
    exact set_filter_same _ n _
  · rw [Lookup_newctrl]
  · rw [(newctrl_managers false n o2 _).1, set_filter_other,
      (newctrl_managers false n o1 w).1, set_filter_other]
  · intro k hk
    unfold Lookup
    rw [(newctrl_managers false n o2 _).1, get_set_other _ n k _ hk,
      (newctrl_managers false n o1 w).1, get_set_other _ n k _ hk]

/-! ## Storage faults -/

theorem find?_filter_same (t : Table) (k : Int) :
    (t.filter (fun x => x.GroupID != k)).find? (fun x => x.GroupID == k) = none := by
  rw [List.find?_eq_none]
  intro x hx
  have := (List.mem_filter.1 hx).2
  simpa using this

theorem find?_filter_other (t : Table) (k j : Int) (h : k ≠ j) :
    (t.filter (fun x => x.GroupID != k)).find? (fun x => x.GroupID == j)
      = t.find? (fun x => x.GroupID == j) := by
  induction t with
  | nil => rfl
  | cons a t ih =>
    by_cases hk : a.GroupID = k
    · have hj : a.GroupID ≠ j := by rw [hk]; exact h
      rw [List.filter_cons_of_neg (by simp [hk]), ih, List.find?_cons_of_neg _ (by simp [hj])]
    · rw [List.filter_cons_of_pos (by simp [hk])]
      by_cases hj : a.GroupID = j
      · rw [List.find?_cons_of_pos _ (by simp [hj]), List.find?_cons_of_pos _ (by simp [hj])]
      · rw [List.find?_cons_of_neg _ (by simp [hj]), List.find?_cons_of_neg _ (by simp [hj])]
        exact ih

theorem Find_without_same (db : Sqlite) (s : String) (k : Int) :
    (db.without s k).Find false s k = none := by
  simp only [Sqlite.without, Sqlite.Find, Bool.false_eq_true, if_false, Function.update_same]
  exact find?_filter_same (db s) k

theorem Find_without_other (db : Sqlite) (s : String) (k j : Int) (h : k ≠ j) :
    (db.without s k).Find false s j = db.Find false s j := by
  simp only [Sqlite.without, Sqlite.Find, Bool.false_eq_true, if_false, Function.update_same]
  exact find?_filter_other (db s) k j h

theorem Find_fault (db : Sqlite) (s : String) (g : Int) : db.Find true s g = none := by
  simp [Sqlite.Find]

theorem IsEnabledIn_fst_lookups (m : Control) (f : Faults) (db : Sqlite) (g : Int) :
    (m.IsEnabledIn f db g).1 = resolveLookups m.options.DisableOnDefault
      (db.Find f.findAll m.service 0) (db.Find f.findGid m.service g) := by
  unfold Control.IsEnabledIn resolveLookups ALL
  simp only []
  cases h0 : db.Find f.findAll m.service 0 <;> cases hg : db.Find f.findGid m.service g
  · cases hd : m.options.DisableOnDefault <;> simp [hd]
  · simp
  · rename_i c0
    by_cases hc : c0.Disable = 0
    · cases hd : m.options.DisableOnDefault <;> simp [hc, hd]
    · simp [hc]
  · rename_i c0 c
    by_cases hc : c0.Disable = 0
    · simp [hc]
    · simp [hc]

/-- C13, as stated, fails for the scope 0: with a disabled scope-0 row and
`DisableOnDefault = false`, when only the lookup of the global row fails,
`IsEnabledIn 0` returns `false` (the second lookup finds the row), whereas on the
fault-free store without scope-0 row it returns `true`. -/
theorem C13_fault_is_absent_row_counterexample :
    (Control.IsEnabledIn ⟨0, "weather", ⟨false, ""⟩⟩ ⟨true, false, false⟩
      (fun _ => [⟨0, 1⟩]) 0).1 = false ∧
    (Control.IsEnabledIn ⟨0, "weather", ⟨false, ""⟩⟩ noFaults
      (Sqlite.without (fun _ => [⟨0, 1⟩]) "weather" 0) 0).1 = true := by
  refine ⟨by decide, by decide⟩

/-- C13, amended: `Enable` and `Disable` whose insert fails return with the store
unchanged, and `IsEnabledIn` returns a value under every fault environment
(the three functions have no error result). When only the lookup of the global
row fails and `g ≠ 0`, when only the lookup of the row for `g` fails (and is
reached: `g ≠ 0` or the global lookup yields no disabled row), and when both
lookups fail, `IsEnabledIn g` returns the value it returns on the fault-free store
without the corresponding row(s). For `g = 0` with only the global lookup
failing, the second lookup decides: `disabled == 0` of the scope-0 row, the
default if there is none. -/
theorem C13_fault_is_absent_row_amended (m : Control) (db : Sqlite) (g : Int) (fi fi' : Bool) :
    (m.Enable true db g = db ∧ m.Disable true db g = db) ∧
    (g ≠ 0 →
      (m.IsEnabledIn ⟨true, false, fi⟩ db g).1
        = (m.IsEnabledIn ⟨false, false, fi'⟩ (db.without m.service 0) g).1) ∧
    ((g ≠ 0 ∨ ¬ globalDisabled db m.service) →
      (m.IsEnabledIn ⟨false, true, fi⟩ db g).1
        = (m.IsEnabledIn ⟨false, false, fi'⟩ (db.without m.service g) g).1) ∧
    ((m.IsEnabledIn ⟨true, true, fi⟩ db g).1
        = (m.IsEnabledIn ⟨false, false, fi'⟩ ((db.without m.service 0).without m.service g) g).1 ∧
      (m.IsEnabledIn ⟨true, true, fi⟩ db g).1 = !m.options.DisableOnDefault) ∧
    ((m.IsEnabledIn ⟨true, false, fi⟩ db 0).1
        = match db.Find false m.service 0 with
          | some c => c.Disable == 0
          | none => !m.options.DisableOnDefault) := by
  refine ⟨⟨by simp [Control.Enable, Sqlite.Insert], by simp [Control.Disable, Sqlite.Insert]⟩,
    ?_, ?_, ?_, ?_⟩
  · intro hg
    rw [IsEnabledIn_fst_lookups, IsEnabledIn_fst_lookups]
    simp only [Find_fault, Find_without_same, Find_without_other db m.service 0 g (Ne.symm hg)]
  · intro h
    rw [IsEnabledIn_fst_lookups, IsEnabledIn_fst_lookups]
    simp only [Find_fault, Find_without_same]
    by_cases hg : g = 0
    · subst hg
      have hgd : ¬ globalDisabled db m.service := by
        rcases h with h | h
        · exact absurd rfl h
        · exact h
      rw [Find_without_same]
      cases h0 : db.Find false m.service 0 with
      | none => rfl
      | some c0 =>
        have : c0.Disable = 0 := by
          by_contra hc
          exact hgd ⟨c0, h0, hc⟩
        simp [resolveLookups, this]
    · rw [Find_without_other db m.service g 0 hg]
  · have h2 : (m.IsEnabledIn ⟨true, true, fi⟩ db g).1 = !m.options.DisableOnDefault := by
      rw [IsEnabledIn_fst_lookups]
      simp only [Find_fault]
      rfl
    refine ⟨?_, h2⟩
    rw [h2, IsEnabledIn_fst_lookups]
    simp only [Find_without_same]
    by_cases hg : g = 0
    · subst hg
      rw [Find_without_same]; rfl
    · rw [Find_without_other _ m.service g 0 hg, Find_without_same]; rfl
  · rw [IsEnabledIn_fst_lookups]
    simp only [Find_fault]
    cases db.Find false m.service 0 <;> rfl

/-- Witness of the amended C13: scope 555 is enabled, the scope-0 row is disabled
and its lookup fails: `IsEnabledIn 555` returns what it returns on the store
without scope-0 row, namely `true`. -/
theorem C13_fault_is_absent_row_amended_witness :
    (555 : Int) ≠ 0 ∧
    (Control.IsEnabledIn ⟨0, "weather", ⟨true, ""⟩⟩ ⟨true, false, false⟩
      (fun _ => [⟨0, 1⟩, ⟨555, 0⟩]) 555).1
      = (Control.IsEnabledIn ⟨0, "weather", ⟨true, ""⟩⟩ ⟨false, false, false⟩
          (Sqlite.without (fun _ => [⟨0, 1⟩, ⟨555, 0⟩]) "weather" 0) 555).1 :=
  ⟨by decide,
   (C13_fault_is_absent_row_amended ⟨0, "weather", ⟨true, ""⟩⟩
     (fun _ => [⟨0, 1⟩, ⟨555, 0⟩]) 555 false false).2.1 (by decide)⟩

/-! ## The global disable as an invariant -/

theorem Op_run_keeps_globalDisabled (m : Control) (db : Sqlite) (op : Op)
    (ha : op.admitted) (h : globalDisabled db m.service) :
    globalDisabled (op.run m db) m.service := by
  obtain ⟨c, hc, hd⟩ := h
  cases op with
  | enable fault g =>
    have hg : g ≠ 0 := ha
    cases fault
    · exact ⟨c, by rw [Op.run, ALL, Find_Enable_other m db g 0 hg]; exact hc, hd⟩
    · exact ⟨c, by simpa [Op.run, Control.Enable, Sqlite.Insert] using hc, hd⟩
  | disable fault g =>
    cases fault
    · by_cases hg : g = 0
      · subst hg
        exact ⟨⟨0, 1⟩, Find_Disable_same m db 0, by decide⟩
      · exact ⟨c, by rw [Op.run, ALL, Find_Disable_other m db g 0 hg]; exact hc, hd⟩
    · exact ⟨c, by simpa [Op.run, Control.Disable, Sqlite.Insert] using hc, hd⟩
  | isEnabledIn f k =>
    have hf : f.findAll = false := ha
    obtain ⟨fa, fg, fi⟩ := f
    simp only at hf
    subst hf
    refine ⟨c, ?_, hd⟩
    rw [Op.run, IsEnabledIn_of_global_disabled m fg fi db k c hc hd]
    exact hc

theorem runOps_keeps_globalDisabled (m : Control) (ops : List Op) (db : Sqlite)
    (ha : ∀ op ∈ ops, op.admitted) (h : globalDisabled db m.service) :
    globalDisabled (runOps m db ops) m.service := by
  induction ops generalizing db with
  | nil => exact h
  | cons op rest ih =>
    unfold runOps
    rw [List.foldl_cons]
    exact ih (op.run m db) (fun o ho => ha o (List.mem_cons_of_mem _ ho))
      (Op_run_keeps_globalDisabled m db op (ha op (List.mem_cons_self _ _)) h)

/-- C14: starting from a store whose scope-0 lookup yields a disabled row, after
every finite sequence of calls `Enable g` with `g ≠ 0`, `Disable g` (any `g`, 0
included) and `IsEnabledIn h` (any `h`, 0 included), with or without failing
inserts and failing per-scope lookups, the scope-0 lookup still yields a disabled
row and `IsEnabledIn k` returns `false` for every scope `k`. -/
theorem C14_global_disable_invariant (m : Control) (db : Sqlite) (ops : List Op)
    (ha : ∀ op ∈ ops, op.admitted) (h : globalDisabled db m.service) :
    globalDisabled (runOps m db ops) m.service ∧
    ∀ k, (m.IsEnabledIn noFaults (runOps m db ops) k).1 = false := by
  have hgd := runOps_keeps_globalDisabled m ops db ha h
  refine ⟨hgd, ?_⟩
  intro k
  obtain ⟨c, hc, hd⟩ := hgd
  show (m.IsEnabledIn ⟨false, false, false⟩ _ k).1 = false
  rw [IsEnabledIn_of_global_disabled m false false _ k c hc hd]

/-- Witness of C14: after `Disable 0`, the calls `Enable 555`, `IsEnabledIn 0`,
`Disable 7`, `Disable 0`, `IsEnabledIn 555` leave the service disabled in 555. -/
theorem C14_global_disable_invariant_witness :
    globalDisabled (fun _ => [⟨0, 1⟩]) "weather" ∧
    (∀ op ∈ [Op.enable false 555, Op.isEnabledIn noFaults 0, Op.disable false 7,
        Op.disable false 0, Op.isEnabledIn noFaults 555], op.admitted) ∧
    (Control.IsEnabledIn ⟨0, "weather", ⟨false, ""⟩⟩ noFaults
      (runOps ⟨0, "weather", ⟨false, ""⟩⟩ (fun _ => [⟨0, 1⟩])
        [Op.enable false 555, Op.isEnabledIn noFaults 0, Op.disable false 7,
          Op.disable false 0, Op.isEnabledIn noFaults 555]) 555).1 = false :=
  ⟨⟨⟨0, 1⟩, by decide, by decide⟩, by decide,
   (C14_global_disable_invariant ⟨0, "weather", ⟨false, ""⟩⟩ (fun _ => [⟨0, 1⟩])
     [Op.enable false 555, Op.isEnabledIn noFaults 0, Op.disable false 7,
       Op.disable false 0, Op.isEnabledIn noFaults 555]
     (by decide) ⟨⟨0, 1⟩, by decide, by decide⟩).2 555⟩

/-! ## The frame of `IsEnabledIn` -/

theorem Find_isSome_of_mem (db : Sqlite) (s : String) (g : Int)
    (h : ∃ r ∈ db s, r.GroupID = g) : ∃ c, db.Find false s g = some c := by
  cases hf : db.Find false s g with
  | some c => exact ⟨c, rfl⟩
  | none =>
    rw [Find_false, List.find?_eq_none] at hf
    obtain ⟨r, hr, hg⟩ := h
    exact absurd (by simpa using hg) (hf r hr)

theorem IsEnabledIn_of_row (m : Control) (fa fi : Bool) (db : Sqlite) (g : Int) (c : grpcfg)
    (h : db.Find false m.service g = some c) :
    (m.IsEnabledIn ⟨fa, false, fi⟩ db g).2 = db := by
  unfold Control.IsEnabledIn
  simp only [h]
  split <;> rfl

theorem IsEnabledIn_writeBack (m : Control) (fi : Bool) (db : Sqlite) (g : Int)
    (h0 : ¬ globalDisabled db m.service) (hg : db.Find false m.service g = none) :
    (m.IsEnabledIn ⟨false, false, fi⟩ db g).2
      = if m.options.DisableOnDefault then m.Disable fi db g else m.Enable fi db g := by
  have hoff : (match db.Find false m.service ALL with
      | some c => c.Disable != 0
      | none => false) = false := by
    cases hf : db.Find false m.service ALL with
    | none => rfl
    | some c =>
      have : c.Disable = 0 := by
        by_contra hc
        exact h0 ⟨c, hf, hc⟩
      simp [this]
  unfold Control.IsEnabledIn
  simp only [hoff, hg]
  cases m.options.DisableOnDefault <;> simp

theorem upsert_of_absent (db : Sqlite) (s : String) (r : grpcfg)
    (h : ∀ x ∈ db s, x.GroupID ≠ r.GroupID) :
    db.Insert false s r = some (Function.update db s (db s ++ [r])) := by
  unfold Sqlite.Insert
  rw [List.filter_eq_self.2 (fun x hx => by simpa using h x hx)]
  simp

/-- C15: on a store without fault, `IsEnabledIn g` leaves the store as it was when
the scope-0 lookup yields a disabled row, and when a row for `g` exists; otherwise
(no disabled scope-0 row, no row for `g`) the store after the call is the store
before it with the one row `(g, 1)` (if `DisableOnDefault`) or `(g, 0)` appended
to the table of the service, every other row and table unchanged. -/
theorem C15_isEnabledIn_writes_only_first_time (m : Control) (db : Sqlite) (g : Int) :
    (globalDisabled db m.service → (m.IsEnabledIn noFaults db g).2 = db) ∧
    ((∃ r ∈ db m.service, r.GroupID = g) → (m.IsEnabledIn noFaults db g).2 = db) ∧
    (¬ globalDisabled db m.service → (∀ r ∈ db m.service, r.GroupID ≠ g) →
      (m.IsEnabledIn noFaults db g).2
        = Function.update db m.service
            (db m.service ++ [⟨g, if m.options.DisableOnDefault then 1 else 0⟩])) := by
  refine ⟨?_, ?_, ?_⟩
  · rintro ⟨c, hc, hd⟩
    show (m.IsEnabledIn ⟨false, false, false⟩ db g).2 = db
    rw [IsEnabledIn_of_global_disabled m false false db g c hc hd]
  · intro h
    obtain ⟨c, hc⟩ := Find_isSome_of_mem db m.service g h
    exact IsEnabledIn_of_row m false false db g c hc
  · intro h0 hg
    show (m.IsEnabledIn ⟨false, false, false⟩ db g).2 = _
    rw [IsEnabledIn_writeBack m false db g h0 (Find_eq_none_of_absent db m.service g hg)]
    cases hd : m.options.DisableOnDefault
    · simp only [Bool.false_eq_true, if_false]
      unfold Control.Enable
      rw [upsert_of_absent db m.service ⟨g, 0⟩ hg]
    · simp only [if_true]
      unfold Control.Disable
      rw [upsert_of_absent db m.service ⟨g, 1⟩ hg]

/-- Witness of C15: scenario of the specification, "weather" with
`DisableOnDefault = true`, a table holding only scope 7: the first
`IsEnabledIn 555` appends the row `(555, 1)`. -/
theorem C15_isEnabledIn_writes_only_first_time_witness :
    ¬ globalDisabled (fun _ => [⟨7, 0⟩]) "weather" ∧
    (∀ r ∈ ((fun _ => [⟨7, 0⟩]) : Sqlite) "weather", r.GroupID ≠ 555) ∧
    (Control.IsEnabledIn ⟨0, "weather", ⟨true, ""⟩⟩ noFaults (fun _ => [⟨7, 0⟩]) 555).2 "weather"
      = [⟨7, 0⟩, ⟨555, 1⟩] :=
  have h0 : ¬ globalDisabled (fun _ => [⟨7, 0⟩]) "weather" := by
    rintro ⟨c, hc, _⟩
    have hn : Sqlite.Find (fun _ => [⟨7, 0⟩]) false "weather" ALL = none := by decide
    rw [hn] at hc
    cases hc
  ⟨h0, by decide,
   by
    rw [(C15_isEnabledIn_writes_only_first_time ⟨0, "weather", ⟨true, ""⟩⟩
      (fun _ => [⟨7, 0⟩]) 555).2.2 h0 (by decide)]
    simp⟩

/-! ## A query and the other scopes -/

theorem resolveLookups_some_enabled (d : Bool) (g : Int) (x : Option grpcfg) :
    resolveLookups d (some ⟨g, 0⟩) x = resolveLookups d none x := by
  cases x <;> simp [resolveLookups]

/-- C16, as stated, fails: with `DisableOnDefault = true`, no scope-0 row and an
enabled row for scope 5, `IsEnabledIn 5` returns `true`; after the query
`IsEnabledIn 0` it returns `false`: the first-time write-back of the query has
stored the row `(0, 1)`, which is the global-override row. -/
theorem C16_query_frame_counterexample :
    (Control.IsEnabledIn ⟨0, "weather", ⟨true, ""⟩⟩ noFaults (fun _ => [⟨5, 0⟩]) 5).1 = true ∧
    (Control.IsEnabledIn ⟨0, "weather", ⟨true, ""⟩⟩ noFaults
      (Control.IsEnabledIn ⟨0, "weather", ⟨true, ""⟩⟩ noFaults (fun _ => [⟨5, 0⟩]) 0).2 5).1
      = false := by
  refine ⟨by decide, by decide⟩

/-- C16, amended: for all scopes `g ≠ h`, if `g ≠ 0`, or `DisableOnDefault` is not
set, or the table holds a scope-0 row, the query `IsEnabledIn g` does not change
the value of `IsEnabledIn h`. In the remaining case (`g = 0`, no scope-0 row,
`DisableOnDefault` set) the query stores the row `(0, 1)` and `IsEnabledIn h`
returns `false` afterwards, for every `h`. -/
theorem C16_query_frame_amended (m : Control) (db : Sqlite) (g h : Int) :
    (g ≠ h →
      (g ≠ 0 ∨ m.options.DisableOnDefault = false ∨ ∃ r ∈ db m.service, r.GroupID = 0) →
      (m.IsEnabledIn noFaults (m.IsEnabledIn noFaults db g).2 h).1
        = (m.IsEnabledIn noFaults db h).1) ∧
    (m.options.DisableOnDefault = true → (∀ r ∈ db m.service, r.GroupID ≠ 0) →
      (m.IsEnabledIn noFaults db 0).2 = m.Disable false db 0 ∧
      (m.IsEnabledIn noFaults (m.IsEnabledIn noFaults db 0).2 h).1 = false) := by
  refine ⟨?_, ?_⟩
  · intro hgh hcase
    show (m.IsEnabledIn ⟨false, false, false⟩ (m.IsEnabledIn ⟨false, false, false⟩ db g).2 h).1
      = (m.IsEnabledIn ⟨false, false, false⟩ db h).1
    by_cases hgd : globalDisabled db m.service
    · obtain ⟨c, hc, hd⟩ := hgd
      rw [IsEnabledIn_of_global_disabled m false false db g c hc hd]
    · cases hfg : db.Find false m.service g with
      | some c => rw [IsEnabledIn_of_row m false false db g c hfg]
      | none =>
        rw [IsEnabledIn_writeBack m false db g hgd hfg, IsEnabledIn_fst_lookups,
          IsEnabledIn_fst_lookups]
        simp only []
        by_cases hg0 : g = 0
        · subst hg0
          have hdd : m.options.DisableOnDefault = false := by
            rcases hcase with h1 | h1 | h1
            · exact absurd rfl h1
            · exact h1
            · obtain ⟨c, hc⟩ := Find_isSome_of_mem db m.service 0 h1
              rw [hfg] at hc
              cases hc
          simp only [hdd, Bool.false_eq_true, if_false]
          rw [Find_Enable_same, Find_Enable_other m db 0 h hgh, hfg,
            resolveLookups_some_enabled]
        · cases m.options.DisableOnDefault
          · simp only [Bool.false_eq_true, if_false]
            rw [Find_Enable_other m db g 0 hg0, Find_Enable_other m db g h hgh]
          · simp only [if_true]
            rw [Find_Disable_other m db g 0 hg0, Find_Disable_other m db g h hgh]
  · intro hdd h0
    have hf0 : db.Find false m.service 0 = none := Find_eq_none_of_absent db m.service 0 h0
    have hgd : ¬ globalDisabled db m.service := by
      rintro ⟨c, hc, _⟩
      rw [show ALL = (0 : Int) from rfl, hf0] at hc
      cases hc
    have hw : (m.IsEnabledIn noFaults db 0).2 = m.Disable false db 0 := by
      show (m.IsEnabledIn ⟨false, false, false⟩ db 0).2 = _
      rw [IsEnabledIn_writeBack m false db 0 hgd hf0, hdd]
      rfl
    refine ⟨hw, ?_⟩
    rw [hw]
    show (m.IsEnabledIn ⟨false, false, false⟩ (m.Disable false db ALL) h).1 = false
    rw [IsEnabledIn_of_global_disabled m false false _ h ⟨ALL, 1⟩
      (Find_Disable_same m db ALL) (by decide)]

/-- Witness of the amended C16: the first query of scope 7 stores the row
`(7, 1)`; the value for scope 5 is `true` before and after. -/
theorem C16_query_frame_amended_witness :
    (7 : Int) ≠ 5 ∧
    (Control.IsEnabledIn ⟨0, "weather", ⟨true, ""⟩⟩ noFaults
      (Control.IsEnabledIn ⟨0, "weather", ⟨true, ""⟩⟩ noFaults (fun _ => [⟨5, 0⟩]) 7).2 5).1
      = (Control.IsEnabledIn ⟨0, "weather", ⟨true, ""⟩⟩ noFaults (fun _ => [⟨5, 0⟩]) 5).1 :=
  ⟨by decide,
   (C16_query_frame_amended ⟨0, "weather", ⟨true, ""⟩⟩ (fun _ => [⟨5, 0⟩]) 7 5).1
     (by decide) (Or.inl (by decide))⟩

/-! ## The command handlers and a service that is not registered -/

/-- C17 (the code at the failing input): on the empty registry the commands
`enable nosuch`, `disable nosuch` and `usage nosuch` send the reply "service not
found" and then go on: the handler calls `Enable`/`Disable` on, or reads the
options of, the nil `Control`, and the run ends in the nil pointer dereference.
So it is for every registry, event and command whose argument `Lookup` does not
find: the only text sent is the reply, the store is untouched, and the run
panics. -/
theorem C17_unregistered_service_is_dereferenced :
    (Lookup ⟨fun _ => [], [], 0⟩ "nosuch" = (none, false) ∧
      (commandHandler false ⟨fun _ => [], [], 0⟩ ⟨123, 456⟩ ⟨"enable", "nosuch"⟩).sent
        = ["没有找到指定服务!"] ∧
      (commandHandler false ⟨fun _ => [], [], 0⟩ ⟨123, 456⟩ ⟨"enable", "nosuch"⟩).panicked
        = true ∧
      (commandHandler false ⟨fun _ => [], [], 0⟩ ⟨123, 456⟩ ⟨"disable", "nosuch"⟩).panicked
        = true ∧
      (usageHandler ⟨fun _ => [], [], 0⟩ ⟨"usage", "nosuch"⟩).sent = ["没有找到指定服务!"] ∧
      (usageHandler ⟨fun _ => [], [], 0⟩ ⟨"usage", "nosuch"⟩).panicked = true) ∧
    (∀ (fault : Bool) (w : Globals) (ev : Event) (model : CommandModel),
      Lookup w model.Args = (none, false) →
      ((commandHandler fault w ev model).sent = ["没有找到指定服务!"] ∧
        (commandHandler fault w ev model).db = w.db ∧
        (commandHandler fault w ev model).panicked = true) ∧
      ((usageHandler w model).sent = ["没有找到指定服务!"] ∧
        (usageHandler w model).panicked = true)) := by
  refine ⟨⟨by decide, by decide, by decide, by decide, by decide, by decide⟩, ?_⟩
  intro fault w ev model h
  refine ⟨?_, ?_⟩
  · unfold commandHandler
    simp only [h]
    split <;> simp
  · unfold usageHandler
    simp only [h]
    simp

/-! ## `ForEach` iterates over a snapshot -/

theorem lookup_eq_some_iff_mem (l : Managers) (hu : l.uniqueKeys) (k : String) (v : Control) :
    l.lookup k = some v ↔ (k, v) ∈ l := by
  induction l with
  | nil => simp
  | cons e rest ih =>
    obtain ⟨a, b⟩ := e
    have hu' : a ∉ rest.map Prod.fst ∧ (rest.map Prod.fst).Nodup := by
      simpa [Managers.uniqueKeys] using hu
    rw [List.lookup_cons]
    by_cases hk : k = a
    · subst hk
      simp only [beq_self_eq_true, Option.some.injEq, List.mem_cons, Prod.mk.injEq, true_and]
      constructor
      · intro h; exact Or.inl h.symm
      · rintro (h | h)
        · exact h.symm
        · exact absurd (List.mem_map_of_mem Prod.fst h) hu'.1
    · have hka : (k == a) = false := by simpa using hk
      simp only [hka, List.mem_cons, Prod.mk.injEq, hk, false_and, false_or]
      exact ih hu'.2

theorem get_eq_of_perm (l₁ l₂ : Managers) (hp : l₁.Perm l₂) (hu : l₂.uniqueKeys) (k : String) :
    l₁.get k = l₂.get k := by
  have hu1 : l₁.uniqueKeys := ((hp.map Prod.fst).nodup_iff).2 hu
  have hl : l₁.lookup k = l₂.lookup k := by
    apply Option.ext
    intro v
    simp only [Option.mem_def]
    rw [lookup_eq_some_iff_mem l₁ hu1, lookup_eq_some_iff_mem l₂ hu, hp.mem_iff]
  unfold Managers.get
  rw [hl]

theorem deref_append_left (h : MapHeap) (x : Managers) (a : MapRef) (ha : a < h.length) :
    MapHeap.deref (h ++ [x]) a = MapHeap.deref h a := by
  unfold MapHeap.deref
  exact List.getD_append h [x] [] a ha

theorem deref_append_length (h : MapHeap) (x : Managers) :
    MapHeap.deref (h ++ [x]) h.length = x := by
  unfold MapHeap.deref
  rw [List.getD_append_right h [x] [] h.length (le_refl _)]
  simp

theorem assign_append_length (h : MapHeap) (x : Managers) (k : String) (v : Control) :
    MapHeap.assign (h ++ [x]) h.length k v = h ++ [x.set k v] := by
  unfold MapHeap.assign
  rw [deref_append_length, List.set_append_right _ _ (le_refl _)]
  simp

theorem deref_assign_ne (h : MapHeap) (a b : MapRef) (k : String) (v : Control)
    (hab : a ≠ b) : MapHeap.deref (MapHeap.assign h a k v) b = MapHeap.deref h b := by
  unfold MapHeap.assign MapHeap.deref
  simp only [List.getD_eq_getElem?_getD, List.getElem?_set_ne hab]

theorem foldl_assign_fresh (h : MapHeap) (l acc : Managers) :
    l.foldl (fun hp e => MapHeap.assign hp h.length e.1 e.2) (h ++ [acc])
      = h ++ [l.foldl (fun r e => r.set e.1 e.2) acc] := by
  induction l generalizing acc with
  | nil => rfl
  | cons e rest ih =>
    rw [List.foldl_cons, assign_append_length, ih, List.foldl_cons]

theorem copyMapRef_eq (pick : Managers → Managers) (h : MapHeap) (m : MapRef)
    (hm : m < h.length) :
    Ref.copyMap pick h m = (h ++ [copyMap pick (MapHeap.deref h m)], h.length) := by
  unfold Ref.copyMap MapHeap.make copyMap
  simp only []
  rw [deref_append_left h [] m hm, foldl_assign_fresh]

theorem newctrlRef_frame (cf : Bool) (k : String) (o : Option Options) (w : RefGlobals)
    (a : MapRef) (ha : w.managers ≠ a) :
    (Ref.newctrl cf k o w).1.managers = w.managers ∧
    MapHeap.deref (Ref.newctrl cf k o w).1.heap a = MapHeap.deref w.heap a := by
  cases cf <;> simp [Ref.newctrl, Sqlite.Create, deref_assign_ne _ _ _ _ _ ha]

theorem firstUnseen_some (st now : Managers) (seen : List String) (e : String × Control)
    (h : firstUnseen st now seen = some e) : e ∈ now ∧ e.1 ∉ seen := by
  unfold firstUnseen at h
  refine ⟨List.mem_of_find?_eq_some h, ?_⟩
  have := List.find?_some h
  simpa using this

theorem firstUnseen_none (st : Managers) (seen : List String)
    (h : firstUnseen st st seen = none) : ∀ e ∈ st, e.1 ∈ seen := by
  unfold firstUnseen at h
  rw [List.find?_eq_none] at h
  intro e he
  have := h e he
  simpa using this

theorem length_le_of_keys_nodup (done c0 : Managers) (hd : (done.map Prod.fst).Nodup)
    (hs : ∀ e ∈ done, e ∈ c0) : done.length ≤ c0.length := by
  have hnd : done.Nodup := List.Nodup.of_map Prod.fst hd
  exact (List.subperm_of_subset hnd hs).length_le

theorem rangeLoopRef_unchanged_map {σ : Type}
    (next : Managers → Managers → List String → Option (String × Control))
    (iterator : String → Control → RefGlobals × σ → Bool × (RefGlobals × σ))
    (a : MapRef) (c0 : Managers)
    (hn1 : ∀ st now seen e, next st now seen = some e → e ∈ now ∧ e.1 ∉ seen)
    (hn2 : ∀ st seen, next st st seen = none → ∀ e ∈ st, e.1 ∈ seen)
    (hv : ∀ k v t, t.1.managers ≠ a →
      (iterator k v t).2.1.managers ≠ a ∧
      MapHeap.deref (iterator k v t).2.1.heap a = MapHeap.deref t.1.heap a)
    (hall : ∀ k v t, (iterator k v t).1 = true) :
    ∀ (fuel : Nat) (done : Managers) (s : RefGlobals × σ),
      s.1.managers ≠ a → MapHeap.deref s.1.heap a = c0 →
      (∀ e ∈ done, e ∈ c0) → (done.map Prod.fst).Nodup → c0.length < fuel + done.length →
      ∃ out, Ref.rangeLoop next iterator a c0 fuel (done.map Prod.fst) s = some out ∧
        (∀ e ∈ out.2.map Prod.fst, e ∈ c0) ∧
        ((out.2.map Prod.fst ++ done).map Prod.fst).Nodup ∧
        (∀ e ∈ c0, e.1 ∈ (out.2.map Prod.fst ++ done).map Prod.fst) := by
  intro fuel
  induction fuel with
  | zero =>
    intro done s _ _ hsub hnd hlen
    have := length_le_of_keys_nodup done c0 hnd hsub
    omega
  | succ fuel ih =>
    intro done s hs1 hs2 hsub hnd hlen
    cases hnx : next c0 (MapHeap.deref s.1.heap a) (done.map Prod.fst) with
    | none =>
      refine ⟨(s, []), by simp only [Ref.rangeLoop, hnx], by simp, by simpa using hnd, ?_⟩
      rw [hs2] at hnx
      intro e he
      simpa using hn2 c0 _ hnx e he
    | some e =>
      have he := hn1 _ _ _ _ hnx
      rw [hs2] at he
      have hv' := hv e.1 e.2 s hs1
      have hsub' : ∀ x ∈ e :: done, x ∈ c0 := by
        intro x hx
        rcases List.mem_cons.1 hx with rfl | hx
        · exact he.1
        · exact hsub x hx
      have hnd' : ((e :: done).map Prod.fst).Nodup := by
        rw [List.map_cons, List.nodup_cons]
        exact ⟨he.2, hnd⟩
      obtain ⟨out, hout, h1, h2, h3⟩ := ih (e :: done) (iterator e.1 e.2 s).2 hv'.1
        (hv'.2.trans hs2) hsub' hnd' (by simp only [List.length_cons]; omega)
      rw [List.map_cons] at hout
      have hperm : ((List.map Prod.fst ((e, true) :: out.2) ++ done).map Prod.fst).Perm
          ((List.map Prod.fst out.2 ++ e :: done).map Prod.fst) := by
        apply List.Perm.map
        simp only [List.map_cons, List.cons_append]
        exact List.perm_middle.symm
      refine ⟨(out.1, (e, true) :: out.2), ?_, ?_, ?_, ?_⟩
      · simp only [Ref.rangeLoop, hnx, hall, if_true, hout]
      · intro x hx
        simp only [List.map_cons, List.mem_cons] at hx
        rcases hx with rfl | hx
        · exact he.1
        · exact h1 x hx
      · exact (hperm.nodup_iff).2 h2
      · intro x hx
        exact (hperm.mem_iff).2 (h3 x hx)

theorem perm_of_cover (l c0 : Managers) (hu : c0.uniqueKeys) (h1 : ∀ e ∈ l, e ∈ c0)
    (h2 : (l.map Prod.fst).Nodup) (h3 : ∀ e ∈ c0, e.1 ∈ l.map Prod.fst) : l.Perm c0 := by
  have hl : l.Nodup := List.Nodup.of_map Prod.fst h2
  have hc : c0.Nodup := List.Nodup.of_map Prod.fst hu
  have hsub : ∀ e ∈ c0, e ∈ l := by
    intro e he
    obtain ⟨x, hx, hxe⟩ := List.mem_map.1 (h3 e he)
    have hxc := h1 x hx
    have : x = e := by
      have hlx : c0.lookup x.1 = some x.2 := (lookup_eq_some_iff_mem c0 hu x.1 x.2).2 hxc
      have hle : c0.lookup e.1 = some e.2 := (lookup_eq_some_iff_mem c0 hu e.1 e.2).2 he
      rw [hxe, hle] at hlx
      exact Prod.ext hxe (Option.some.inj hlx).symm
    exact this ▸ hx
  exact (List.subperm_of_subset hl h1).antisymm (List.subperm_of_subset hc hsub)

/-- In the same model a loop over an alias of the registry does see the
insertions of the visitor: ranging over the reference `managers` itself, with
the visitor registering "b", the entry "b" is visited as well. -/
theorem rangeLoopRef_over_alias_sees_insertion :
    (Ref.rangeLoop firstUnseen
      (fun _ _ (t : RefGlobals × Unit) => (true, ((Ref.newctrl false "b" none t.1).1, t.2)))
      0 [("a", ⟨0, "a", ⟨false, ""⟩⟩)] 5 []
      (⟨[[("a", ⟨0, "a", ⟨false, ""⟩⟩)]], 0, fun _ => [], 1⟩, ())).map
        (fun out => out.2.map (fun x => x.1.1))
      = some ["a", "b"] := by
  decide

end control
